import Mathlib

/-!
Verification of the S3 storage driver (registry/storage/driver/s3-aws/s3.go).

Paths, object keys and upload identifiers are modelled as lists of
characters; byte buffers are modelled as lists of naturals.  Each Lean
definition mirrors one Go function of the source file; backend (S3)
behaviour is supplied through explicit environment records, and every
backend request a function issues is recorded in an action trace.
-/

set_option maxRecDepth 4000

/-- A Go string, modelled as a list of characters. -/
abbrev Str := List Char

/-- Go strings.TrimRight(s, "/"): remove every trailing slash. -/
def trimRightSlashes (s : Str) : Str :=
  (s.reverse.dropWhile (fun c => c = '/')).reverse

/-- Go strings.TrimLeft(s, "/"): remove every leading slash. -/
def trimLeftSlashes (s : Str) : Str :=
  s.dropWhile (fun c => c = '/')

/-- driver.s3Path: TrimLeft(TrimRight(root, "/") + path, "/") (s3.go line 1249). -/
def s3Path (rootDir path : Str) : Str :=
  trimLeftSlashes (trimRightSlashes rootDir ++ path)

/-- Spec wording 4.1: the configured root with any trailing slash removed,
written by repeatedly dropping the last character while it is a slash. -/
def specRootTrimmed : Str → Str
  | [] => []
  | c :: cs =>
    if (c :: cs).getLast? = some '/' then specRootTrimmed (c :: cs).dropLast else c :: cs
termination_by l => l.length
decreasing_by simp only [List.length_dropLast, List.length_cons]; omega

/-- Spec wording 4.1: strip the leading slash from a string. -/
def specStripLeading (s : Str) : Str :=
  match s with
  | '/' :: rest => specStripLeading rest
  | _ => s

/-- Spec wording 4.1: to_key(path) = strip leading slash from root_trimmed + path. -/
def specToKey (root path : Str) : Str :=
  specStripLeading (specRootTrimmed root ++ path)

/-- Go path.Clean component processing: drop empty and "." components and
resolve ".." against the accumulated (reversed) output. -/
def pushComp (rooted : Bool) (acc : List Str) (c : Str) : List Str :=
  if c = [] ∨ c = ['.'] then acc
  else if c = ['.', '.'] then
    match acc with
    | [] => if rooted then [] else [['.', '.']]
    | a :: rest => if a = ['.', '.'] then c :: a :: rest else rest
  else c :: acc

/-- Split a character list on slashes (Go strings.Split(s, "/")). -/
def splitOnSlash : Str → List Str
  | [] => [[]]
  | c :: cs =>
    if c = '/' then [] :: splitOnSlash cs
    else
      match splitOnSlash cs with
      | [] => [[c]]
      | g :: gs => (c :: g) :: gs

/-- Join components with slashes. -/
def joinSlash : List Str → Str
  | [] => []
  | [g] => g
  | g :: gs => g ++ '/' :: joinSlash gs

/-- Go path.Clean (the lexical path cleaner used by filepath.Dir on Unix). -/
def cleanPath (p : Str) : Str :=
  if p = [] then ['.']
  else
    let rooted := p.head? = some '/'
    let comps := ((splitOnSlash p).foldl (pushComp rooted) []).reverse
    let joined := joinSlash comps
    if rooted then
      if joined = [] then ['/'] else '/' :: joined
    else
      if joined = [] then ['.'] else joined

/-- Go filepath.Dir: Clean of the portion of the path up to and including the
final separator. -/
def dirPath (p : Str) : Str :=
  cleanPath ((p.reverse.dropWhile (fun c => ¬ c = '/')).reverse)

/-- The loop of directoryDiff (s3.go lines 1230-1237): repeatedly take the
parent directory, stopping once it is "/" or a (string) prefix of prev, and
accumulate the parents visited.  Fuel bounds the iteration count; running out
of fuel models the non-terminating executions of the Go loop. -/
def ddLoop (prev : Str) : Nat → Str → List Str → Option (List Str)
  | 0, _, _ => none
  | fuel + 1, parent, acc =>
    let parent := dirPath parent
    if parent = ['/'] ∨ parent.isPrefixOf prev then some acc
    else ddLoop prev fuel parent (acc ++ [parent])

/-- directoryDiff (s3.go lines 1223-1240): collect the parents of `current`
not shared with `prev` and return them shallowest first.  `none` models a
non-terminating execution. -/
def directoryDiff (prev current : Str) : Option (List Str) :=
  if prev = [] ∨ current = [] then some []
  else (ddLoop prev (current.length + 1) current []).map List.reverse

/-- The claim's description of the directoryDiff walk, with the claim's stop
condition: parent == "/", parent == prev, or prev starts with parent + "/".
Collects shallowest-first directly. -/
def specDirDiffClaimedLoop (prev : Str) : Nat → Str → Option (List Str)
  | 0, _ => none
  | fuel + 1, cur =>
    let parent := dirPath cur
    if parent = ['/'] ∨ parent = prev ∨ (parent ++ ['/']).isPrefixOf prev then some []
    else (specDirDiffClaimedLoop prev fuel parent).map (fun rest => rest ++ [parent])

/-- The claim C5 as stated, as a function of prev and current. -/
def specDirDiffClaimed (prev current : Str) : Option (List Str) :=
  if prev = [] ∨ current = [] then some []
  else specDirDiffClaimedLoop prev (current.length + 1) current

/-- The amended description: the walk stops when parent == "/", parent == prev,
or prev starts with parent (plain string prefix, no appended slash). -/
def specDirDiffAmendedLoop (prev : Str) : Nat → Str → Option (List Str)
  | 0, _ => none
  | fuel + 1, cur =>
    let parent := dirPath cur
    if parent = ['/'] ∨ parent = prev ∨ parent.isPrefixOf prev then some []
    else (specDirDiffAmendedLoop prev fuel parent).map (fun rest => rest ++ [parent])

/-- The amended claim C5 as a function of prev and current. -/
def specDirDiffAmended (prev current : Str) : Option (List Str) :=
  if prev = [] ∨ current = [] then some []
  else specDirDiffAmendedLoop prev (current.length + 1) current

/-- Backend error codes as classified by parseError. -/
inductive ErrCode where
  | noSuchKey
  | quotaExceeded
  | invalidRange
  | other (n : Nat)
deriving DecidableEq

/-- Domain errors returned by the driver and the writer. -/
inductive WErr where
  | alreadyClosed
  | alreadyCommitted
  | alreadyCancelled
  | pathNotFound (path : Str)
  | quotaExceeded
  | backend (code : ErrCode)
deriving DecidableEq

/-- parseError (s3.go lines 1257-1267). -/
def parseError (path : Str) (code : ErrCode) : WErr :=
  match code with
  | .noSuchKey => .pathNotFound path
  | .quotaExceeded => .quotaExceeded
  | c => .backend c

/-- One already-uploaded part as held by the writer (s3.Part). -/
structure S3Part where
  etag : Nat
  partNumber : Nat
  size : Nat
deriving DecidableEq

/-- A completed-part record (etag, part number) sent on completion. -/
abbrev CompletedPart := Nat × Nat

/-- Insertion into a list sorted by part number. -/
def insertPart (c : CompletedPart) : List CompletedPart → List CompletedPart
  | [] => [c]
  | d :: ds => if c.2 ≤ d.2 then c :: d :: ds else d :: insertPart c ds

/-- sort.Sort on completedParts (s3.go lines 1333-1337, 1359, 1515): sort the
completed parts by part number. -/
def sortParts (l : List CompletedPart) : List CompletedPart :=
  l.foldr insertPart []

/-- Backend requests issued by the writer, recorded in traces. -/
inductive S3Action where
  | completeUpload (key uploadID : Str) (parts : List CompletedPart)
  | abortUpload (key uploadID : Str)
  | createUpload (key : Str)
  | getObject (key : Str)
  | uploadPartCopy (key uploadID : Str) (partNumber : Nat)
  | uploadPart (key uploadID : Str) (partNumber : Nat) (body : List Nat)
deriving DecidableEq

/-- Writer state (struct writer, s3.go lines 1306-1317). -/
structure WriterState where
  key : Str
  uploadID : Str
  parts : List S3Part
  size : Nat
  readyPart : List Nat
  pendingPart : List Nat
  closed : Bool
  committed : Bool
  cancelled : Bool
deriving DecidableEq

/-- Outcomes the backend supplies for the requests one writer call makes. -/
structure S3Env where
  completeOk : Bool
  completeErr : ErrCode
  createResult : Except ErrCode Str
  getObjectResult : Except ErrCode (List Nat × Option ErrCode)
  copyResult : Except ErrCode Nat
  uploadPartResult : Nat → Except ErrCode Nat
  abortResult : Option ErrCode

/-- minChunkSize = 5 MiB (s3.go line 53). -/
def minChunkSize : Nat := 5 * 1024 * 1024

/-- d.newWriter (s3.go lines 1319-1331). -/
def newWriter (key uploadID : Str) (parts : List S3Part) : WriterState :=
  { key := key, uploadID := uploadID, parts := parts,
    size := (parts.map S3Part.size).sum,
    readyPart := [], pendingPart := [],
    closed := false, committed := false, cancelled := false }

/-- Whether the last uploaded part is shorter than minChunkSize
(s3.go line 1350). -/
def lastPartShort (w : WriterState) : Bool :=
  match w.parts.getLast? with
  | some pt => pt.size < minChunkSize
  | none => false

/-- writer.flushPart (s3.go lines 1538-1569). -/
def flushPart (env : S3Env) (chunk : Nat) (w : WriterState) :
    Option WErr × WriterState × List S3Action :=
  if w.readyPart = [] ∧ w.pendingPart = [] then (none, w, [])
  else
    let w :=
      if w.pendingPart.length < chunk then
        { w with readyPart := w.readyPart ++ w.pendingPart, pendingPart := [] }
      else w
    let pn := w.parts.length + 1
    let act := S3Action.uploadPart w.key w.uploadID pn w.readyPart
    match env.uploadPartResult pn with
    | .error c => (some (parseError w.key c), w, [act])
    | .ok etag =>
        let newPart : S3Part := ⟨etag, pn, w.readyPart.length⟩
        (none,
          { w with
            parts := w.parts ++ [newPart],
            readyPart := w.pendingPart,
            pendingPart := [] },
          [act])

/-- One buffer fill of writer.Write: append to `buf` from `p` until the
buffer holds chunk bytes or `p` runs out, returning the new buffer, the
remaining input, and the count consumed (s3.go lines 1433-1443, 1445-1459). -/
def fillBuf (chunk : Nat) (buf p : List Nat) : List Nat × List Nat × Nat :=
  let need := chunk - buf.length
  if 0 < need then
    if need ≤ p.length then (buf ++ p.take need, p.drop need, need)
    else (buf ++ p, [], p.length)
  else (buf, p, 0)

/-- The buffering loop of writer.Write (s3.go lines 1431-1461): fill the
ready buffer, then the pending buffer, flushing whenever the pending buffer
reaches chunk bytes.  `fuel` bounds the iteration count; exhaustion (`none`)
models the executions on which the Go loop does not terminate. -/
def writeLoop (env : S3Env) (chunk : Nat) :
    Nat → WriterState → List Nat → Nat → List S3Action →
      Option (Nat × Option WErr × WriterState × List S3Action)
  | 0, _, _, _, _ => none
  | fuel + 1, w, p, n, acc =>
    if p = [] then some (n, none, w, acc)
    else
      let r1 := fillBuf chunk w.readyPart p
      let w1 := { w with readyPart := r1.1 }
      let p1 := r1.2.1
      let n1 := n + r1.2.2
      let needP := chunk - w1.pendingPart.length
      if 0 < needP ∧ needP ≤ p1.length then
        let r2 := fillBuf chunk w1.pendingPart p1
        let w2 := { w1 with pendingPart := r2.1 }
        match flushPart env chunk w2 with
        | (some e, w3, tr) => some (n1 + r2.2.2, some e, w3, acc ++ tr)
        | (none, w3, tr) => writeLoop env chunk fuel w3 r2.2.1 (n1 + r2.2.2) (acc ++ tr)
      else if 0 < needP then
        let r2 := fillBuf chunk w1.pendingPart p1
        some (n1 + r2.2.2, none, { w1 with pendingPart := r2.1 }, acc)
      else writeLoop env chunk fuel w1 p1 n1 acc

/-- The small-tail recovery protocol inside writer.Write (s3.go lines
1350-1427): complete the current upload with its parts sorted by part number
(aborting on failure), create a new upload, and seed it from the completed
object. -/
def smallTailRecovery (env : S3Env) (w : WriterState) :
    Option WErr × WriterState × List S3Action :=
  let completed := sortParts (w.parts.map fun pt => (pt.etag, pt.partNumber))
  let actComplete := S3Action.completeUpload w.key w.uploadID completed
  if env.completeOk = false then
    (some (parseError w.key env.completeErr), w,
      [actComplete, .abortUpload w.key w.uploadID])
  else
    match env.createResult with
    | .error c => (some (parseError w.key c), w, [actComplete, .createUpload w.key])
    | .ok newID =>
      let w1 := { w with uploadID := newID }
      let tr := [actComplete, S3Action.createUpload w.key]
      if w1.size < minChunkSize then
        match env.getObjectResult with
        | .error c => (some (parseError w1.key c), w1, tr ++ [.getObject w1.key])
        | .ok (bytes, readErr) =>
          let w2 := { w1 with parts := [], readyPart := bytes }
          match readErr with
          | some e => (some (.backend e), w2, tr ++ [.getObject w1.key])
          | none => (none, w2, tr ++ [.getObject w1.key])
      else
        match env.copyResult with
        | .error c =>
            (some (parseError w1.key c), w1, tr ++ [.uploadPartCopy w1.key w1.uploadID 1])
        | .ok etag =>
            (none, { w1 with parts := [⟨etag, 1, w1.size⟩] },
              tr ++ [.uploadPartCopy w1.key w1.uploadID 1])

/-- The tail of writer.Write after any recovery: run the buffering loop and
add the consumed byte count to size (s3.go lines 1429-1463). -/
def finishWrite (env : S3Env) (chunk : Nat) (w : WriterState) (p : List Nat)
    (tr : List S3Action) : Option (Nat × Option WErr × WriterState × List S3Action) :=
  (writeLoop env chunk (p.length + 1) w p 0 tr).map
    fun r => (r.1, r.2.1, { r.2.2.1 with size := r.2.2.1.size + r.1 }, r.2.2.2)

/-- writer.Write (s3.go lines 1339-1464). -/
def writerWrite (env : S3Env) (chunk : Nat) (w : WriterState) (p : List Nat) :
    Option (Nat × Option WErr × WriterState × List S3Action) :=
  if w.closed then some (0, some .alreadyClosed, w, [])
  else if w.committed then some (0, some .alreadyCommitted, w, [])
  else if w.cancelled then some (0, some .alreadyCancelled, w, [])
  else if lastPartShort w then
    match smallTailRecovery env w with
    | (some e, w1, tr) => some (0, some e, w1, tr)
    | (none, w1, tr) => finishWrite env chunk w1 p tr
  else finishWrite env chunk w p []

/-- writer.Close (s3.go lines 1470-1476). -/
def writerClose (env : S3Env) (chunk : Nat) (w : WriterState) :
    Option WErr × WriterState × List S3Action :=
  if w.closed then (some .alreadyClosed, w, [])
  else flushPart env chunk { w with closed := true }

/-- writer.Cancel (s3.go lines 1478-1491). -/
def writerCancel (env : S3Env) (w : WriterState) :
    Option WErr × WriterState × List S3Action :=
  if w.closed then (some .alreadyClosed, w, [])
  else if w.committed then (some .alreadyCommitted, w, [])
  else
    let w1 := { w with cancelled := true }
    (env.abortResult.map (parseError w1.key), w1, [.abortUpload w1.key w1.uploadID])

/-- writer.Commit (s3.go lines 1493-1534). -/
def writerCommit (env : S3Env) (chunk : Nat) (w : WriterState) :
    Option WErr × WriterState × List S3Action :=
  if w.closed then (some .alreadyClosed, w, [])
  else if w.committed then (some .alreadyCommitted, w, [])
  else if w.cancelled then (some .alreadyCancelled, w, [])
  else
    match flushPart env chunk w with
    | (some e, w1, tr) => (some e, w1, tr)
    | (none, w1, tr) =>
      let w2 := { w1 with committed := true }
      let completed := sortParts (w2.parts.map fun pt => (pt.etag, pt.partNumber))
      let act := S3Action.completeUpload w2.key w2.uploadID completed
      if env.completeOk then (none, w2, tr ++ [act])
      else
        (some (parseError w2.key env.completeErr), w2,
          tr ++ [act, .abortUpload w2.key w2.uploadID])

/-- Sum of the recorded part sizes. -/
def partsSizeSum (parts : List S3Part) : Nat := (parts.map S3Part.size).sum

/-- Total bytes held by a writer: uploaded parts plus both buffers. -/
def bufTotal (w : WriterState) : Nat :=
  partsSizeSum w.parts + w.readyPart.length + w.pendingPart.length

/-- Whether an error is one of the already-terminated guard errors. -/
def isAlreadyErr : WErr → Bool
  | .alreadyClosed => true
  | .alreadyCommitted => true
  | .alreadyCancelled => true
  | _ => false

/-- The flag fields of a writer state, for stating preservation. -/
def flagsOf (w : WriterState) : Bool × Bool × Bool :=
  (w.closed, w.committed, w.cancelled)

/-- The strengthened internal invariant used to prove C4: the claimed
invariant, plus the facts that the ready buffer is full whenever the pending
buffer is non-empty and that the buffers are empty whenever the recorded tail
part is short. -/
def GoodState (chunk : Nat) (w : WriterState) : Prop :=
  w.size = bufTotal w ∧
    w.readyPart.length ≤ chunk ∧
    w.pendingPart.length ≤ chunk ∧
    (w.pendingPart ≠ [] → w.readyPart.length = chunk) ∧
    (lastPartShort w = true → w.readyPart = [] ∧ w.pendingPart = [])

/-- The between-calls state invariant claimed by C4. -/
def StateInv (chunk : Nat) (w : WriterState) : Prop :=
  w.size = partsSizeSum w.parts + w.readyPart.length + w.pendingPart.length ∧
    w.readyPart.length ≤ chunk ∧ w.pendingPart.length ≤ chunk

/-- Backend well-formedness for GetObject during recovery: reading back the
freshly completed object yields exactly the bytes of its completed parts. -/
def EnvGetsCompleted (env : S3Env) (w : WriterState) : Prop :=
  ∀ bytes readErr, env.getObjectResult = .ok (bytes, readErr) →
    bytes.length = partsSizeSum w.parts

/-- One public writer call relating pre- and post-states; any outcome
(success or error) is a step. -/
inductive WStep (chunk : Nat) : WriterState → WriterState → Prop where
  | write (env : S3Env) (p : List Nat) (w w' : WriterState) (n : Nat)
      (e : Option WErr) (tr : List S3Action)
      (h : writerWrite env chunk w p = some (n, e, w', tr)) : WStep chunk w w'
  | close (env : S3Env) (w w' : WriterState) (e : Option WErr) (tr : List S3Action)
      (h : writerClose env chunk w = (e, w', tr)) : WStep chunk w w'
  | cancel (env : S3Env) (w w' : WriterState) (e : Option WErr) (tr : List S3Action)
      (h : writerCancel env w = (e, w', tr)) : WStep chunk w w'
  | commit (env : S3Env) (w w' : WriterState) (e : Option WErr) (tr : List S3Action)
      (h : writerCommit env chunk w = (e, w', tr)) : WStep chunk w w'

/-- Reachability by any sequence of public writer calls. -/
def WReachable (chunk : Nat) (w0 w : WriterState) : Prop :=
  Relation.ReflTransGen (WStep chunk) w0 w

/-- One successful public writer call under a well-formed backend. -/
inductive WStepOk (chunk : Nat) : WriterState → WriterState → Prop where
  | write (env : S3Env) (p : List Nat) (w w' : WriterState) (n : Nat)
      (tr : List S3Action) (henv : EnvGetsCompleted env w)
      (h : writerWrite env chunk w p = some (n, none, w', tr)) : WStepOk chunk w w'
  | close (env : S3Env) (w w' : WriterState) (tr : List S3Action)
      (h : writerClose env chunk w = (none, w', tr)) : WStepOk chunk w w'
  | cancel (env : S3Env) (w w' : WriterState) (tr : List S3Action)
      (h : writerCancel env w = (none, w', tr)) : WStepOk chunk w w'
  | commit (env : S3Env) (w w' : WriterState) (tr : List S3Action)
      (h : writerCommit env chunk w = (none, w', tr)) : WStepOk chunk w w'

/-- Reachability by successful calls under a well-formed backend. -/
def WReachableOk (chunk : Nat) (w0 w : WriterState) : Prop :=
  Relation.ReflTransGen (WStepOk chunk) w0 w

/-- A concrete backend environment in which every request succeeds. -/
def envOkAll : S3Env :=
  { completeOk := true, completeErr := .other 0, createResult := .ok ['u', '2'],
    getObjectResult := .ok ([], none), copyResult := .ok 7,
    uploadPartResult := fun pn => .ok (100 + pn), abortResult := none }

/-- A concrete backend environment in which part uploads fail. -/
def envUploadFails : S3Env :=
  { envOkAll with uploadPartResult := fun _ => .error (.other 5) }

/-- A writer state holding a full 5 MiB ready buffer and one pending byte. -/
def wFullBuffers : WriterState :=
  { newWriter ['k'] ['u'] [] with
    size := 5242881, readyPart := List.replicate 5242880 0, pendingPart := [0] }

/-- The state flushPart leaves when its upload fails on wFullBuffers: the
pending byte has been spliced onto the ready buffer. -/
def wFullBuffersCombined : WriterState :=
  { newWriter ['k'] ['u'] [] with
    size := 5242881, readyPart := List.replicate 5242880 0 ++ [0], pendingPart := [] }


/-- Backend requests issued by driver.copy. -/
inductive CopyAction where
  | copyObject (srcKey dstKey : Str)
  | createUpload (dstKey : Str)
  | uploadRangeCopy (dstKey : Str) (partNumber : Nat) (firstByte lastByte : Nat)
  | completeUpload (dstKey : Str) (partNumbers : List Nat)
deriving DecidableEq

/-- driver.copy (s3.go lines 865-956): a single CopyObject at or below the
multipart-copy threshold; otherwise CreateMultipartUpload followed by
ceil(size/chunk) range copies and a completion listing the parts in index
order.  The concurrently-issued part copies are modelled in part-index order,
the order of the pre-sized results array used for the completion request. -/
def sCopy (thresholdSize chunkSize size : Nat) (srcKey dstKey : Str) : List CopyAction :=
  if size ≤ thresholdSize then [.copyObject srcKey dstKey]
  else
    let numParts := (size + chunkSize - 1) / chunkSize
    CopyAction.createUpload dstKey ::
      ((List.range numParts).map fun i =>
        CopyAction.uploadRangeCopy dstKey (i + 1) (i * chunkSize)
          (min (i * chunkSize + chunkSize - 1) (size - 1))) ++
      [CopyAction.completeUpload dstKey ((List.range numParts).map (· + 1))]

/-- The byte count covered by each range copy of a copy trace. -/
def rangeSizes (acts : List CopyAction) : List Nat :=
  acts.filterMap fun a =>
    match a with
    | .uploadRangeCopy _ _ f l => some (l - f + 1)
    | _ => none

/-- A GET request as issued by driver.Reader. -/
structure GetReq where
  key : Str
  range : Str
deriving DecidableEq

/-- The Range header "bytes=<offset>-" (s3.go line 672). -/
def rangeHeader (offset : Nat) : Str :=
  ['b', 'y', 't', 'e', 's', '='] ++ Nat.toDigits 10 offset ++ ['-']

/-- driver.Reader (s3.go lines 666-683): a ranged GET from the given offset;
an InvalidRange error from the backend becomes an empty stream with no error,
other errors pass through parseError. -/
def sReader (rootDir : Str) (env : Except ErrCode (List Nat)) (path : Str)
    (offset : Nat) : GetReq × Except WErr (List Nat) :=
  let req : GetReq := ⟨s3Path rootDir path, rangeHeader offset⟩
  match env with
  | .ok body => (req, .ok body)
  | .error c =>
    if c = .invalidRange then (req, .ok [])
    else (req, .error (parseError path c))

/-- Go strings.Replace(s, old, new, 1): replace the first occurrence of
`old` in `s` (an empty `old` matches at the start). -/
def replaceFirst (old new : Str) : Str → Str
  | [] => if old = [] then new else []
  | c :: cs =>
    if old.isPrefixOf (c :: cs) then new ++ (c :: cs).drop old.length
    else c :: replaceFirst old new cs

/-- One page of a delimiter listing as consumed by driver.List. -/
structure ListPage where
  contents : List Str
  commonPrefixes : List Str
  truncated : Bool

/-- The error driver.List reports for an empty listing. -/
inductive ListErr where
  | pathNotFound (path : Str)
deriving DecidableEq

/-- The page loop of driver.List (s3.go lines 817-841): translate each page's
keys and common prefixes (trailing slash dropped), continuing to the next
page while the current page is truncated. -/
def listAccum (rootKey pfx : Str) : List ListPage → List Str × List Str
  | [] => ([], [])
  | pg :: rest =>
    let fs := pg.contents.map fun k => replaceFirst rootKey pfx k
    let ds := pg.commonPrefixes.map fun c => replaceFirst rootKey pfx c.dropLast
    if pg.truncated then
      let r := listAccum rootKey pfx rest
      (fs ++ r.1, ds ++ r.2)
    else (fs, ds)

/-- The pages the List loop actually consumes: up to and including the first
non-truncated page. -/
def consumedPages : List ListPage → List ListPage
  | [] => []
  | pg :: rest => if pg.truncated then pg :: consumedPages rest else [pg]

/-- driver.List (s3.go lines 788-852).  `none` models the Go panic on the
empty path (path[len(path)-1] with path == ""). -/
def sList (rootDir : Str) (env : List ListPage) (opath : Str) :
    Option (Except ListErr (List Str)) :=
  match opath with
  | [] => none
  | _ =>
    let pfx : Str := if s3Path rootDir [] = [] then ['/'] else []
    let r := listAccum (s3Path rootDir []) pfx env
    if opath ≠ ['/'] ∧ r.1 = [] ∧ r.2 = [] then some (.error (.pathNotFound opath))
    else some (.ok (r.1 ++ r.2))

/-- One object of the recursive (V2) listing used by Walk. -/
structure WalkObj where
  key : Str
  size : Nat
  modTime : Nat

/-- One page of the recursive listing used by Walk. -/
structure WalkPage where
  contents : List WalkObj

/-- A file or synthesized-directory event delivered to the walk callback. -/
structure WalkInfo where
  path : Str
  isDir : Bool
  size : Nat
  modTime : Nat
deriving DecidableEq

/-- The walk callback's verdict (nil, ErrSkipDir, or another error). -/
inductive FnRes where
  | ok
  | skipDir
  | err (code : Nat)
deriving DecidableEq

/-- Outcomes of driver.Walk. -/
inductive WalkOutcome where
  | okDone
  | pathNotFound (path : Str)
  | fnError (code : Nat)
  | backendErr (code : Nat)
deriving DecidableEq

/-- Delivery state of doWalk: the skip directory, the number of callback
invocations, the callback error, whether the page callback stopped, and the
caller's folded state. -/
structure DelivSt (σ : Type) where
  prevSkipDir : Str
  count : Nat
  retErr : Option Nat
  halted : Bool
  fnSt : σ

/-- Phase 1 of one doWalk page (s3.go lines 1145-1172): build the event list,
inferring intermediate directories by diffing each file path against the
previous directory.  `none` models a non-terminating directoryDiff. -/
def buildWalkInfos (rootKey pfx : Str) (objs : List WalkObj) (prevDir : Str) :
    Option (List WalkInfo × Str) :=
  objs.foldl
    (fun acc obj =>
      match acc with
      | none => none
      | some (infos, pd) =>
        let filePath := replaceFirst rootKey pfx obj.key
        match directoryDiff pd filePath with
        | none => none
        | some dirs =>
          let dirInfos := dirs.map fun d2 => WalkInfo.mk d2 true 0 0
          some (infos ++ dirInfos ++ [⟨filePath, false, obj.size, obj.modTime⟩],
            dirs.getLastD pd))
    (some ([], prevDir))

/-- Phase 2 of one doWalk page, one event (s3.go lines 1174-1195): skip
events under the skip directory, call the callback, count the delivery, and
handle ErrSkipDir and other errors. -/
def deliverInfo {σ : Type} (f : σ → WalkInfo → FnRes × σ) (st : DelivSt σ)
    (info : WalkInfo) : DelivSt σ :=
  if st.halted then st
  else if st.prevSkipDir ≠ [] ∧ st.prevSkipDir.isPrefixOf info.path then st
  else
    let r := f st.fnSt info
    let st2 : DelivSt σ := { st with fnSt := r.2, count := st.count + 1 }
    match r.1 with
    | .ok => st2
    | .skipDir =>
      if info.isDir then { st2 with prevSkipDir := info.path }
      else { st2 with halted := true }
    | .err e => { st2 with retErr := some e, halted := true }

/-- The pagination loop of doWalk: process pages until the callback stops or
the pages run out. -/
def walkPages {σ : Type} (rootKey pfx : Str) (f : σ → WalkInfo → FnRes × σ) :
    List WalkPage → Str → DelivSt σ → Option (Str × DelivSt σ)
  | [], pd, st => some (pd, st)
  | pg :: rest, pd, st =>
    if st.halted then some (pd, st)
    else
      match buildWalkInfos rootKey pfx pg.contents pd with
      | none => none
      | some (infos, pd2) =>
        walkPages rootKey pfx f rest pd2 (infos.foldl (deliverInfo f) st)

/-- driver.Walk (s3.go lines 1090-1112) on top of doWalk (lines 1114-1208):
normalize the path to a trailing slash, page the recursive listing, deliver
synthesized events, surface a callback error first, then a pagination error
(unless the callback stopped the pagination), and report PathNotFound(from)
when no event was delivered.  `none` models a non-terminating execution. -/
def sWalk {σ : Type} (rootDir : Str) (pages : List WalkPage) (listErr : Option Nat)
    (f : σ → WalkInfo → FnRes × σ) (s0 : σ) (fromPath : Str) :
    Option (Nat × WalkOutcome) :=
  let path := if fromPath.getLast? = some '/' then fromPath else fromPath ++ ['/']
  let pfx : Str := if s3Path rootDir [] = [] then ['/'] else []
  let key := s3Path rootDir path
  match walkPages (s3Path rootDir []) pfx f pages (pfx ++ key) ⟨[], 0, none, false, s0⟩ with
  | none => none
  | some (_, st) =>
    match st.retErr with
    | some e => some (st.count, .fnError e)
    | none =>
      match listErr, st.halted with
      | some e, false => some (st.count, .backendErr e)
      | _, _ =>
        if st.count = 0 then some (st.count, .pathNotFound fromPath)
        else some (st.count, .okDone)

-- ===================================================================
-- Theorems
-- ===================================================================

theorem specRootTrimmed_ne (l : Str) (h : l ≠ []) :
    specRootTrimmed l = if l.getLast? = some '/' then specRootTrimmed l.dropLast else l := by
  cases l with
  | nil => exact absurd rfl h
  | cons c cs => rw [specRootTrimmed]

theorem specStripLeading_eq (s : Str) : specStripLeading s = trimLeftSlashes s := by
  induction s with
  | nil => rfl
  | cons c cs ih =>
    by_cases h : c = '/'
    · subst h; rw [specStripLeading, trimLeftSlashes]; simpa [List.dropWhile] using ih
    · rw [trimLeftSlashes, List.dropWhile]
      cases cs with
      | nil => simp [specStripLeading, h]
      | cons d ds => simp [specStripLeading, h]

theorem specRootTrimmed_eq (s : Str) : specRootTrimmed s = trimRightSlashes s := by
  induction s using List.reverseRecOn with
  | nil => rw [specRootTrimmed]; rfl
  | append_singleton as a ih =>
    rw [specRootTrimmed_ne _ (by simp)]
    by_cases ha : a = '/'
    · subst ha
      simp only [List.getLast?_concat, List.dropLast_concat, if_pos rfl]
      rw [ih]
      simp [trimRightSlashes, List.reverse_append, List.dropWhile]
    · rw [if_neg (by simp [List.getLast?_concat, ha])]
      simp [trimRightSlashes, List.reverse_append, List.dropWhile, ha]

/-- C7: the source key mapping agrees with the spec wording, with the spec's
two examples. -/
theorem s3Path_matches_spec :
    (∀ root path : Str, s3Path root path = specToKey root path) ∧
      s3Path [] "/a/b".toList = "a/b".toList ∧
      s3Path "/r".toList "/a/b".toList = "r/a/b".toList := by
  refine ⟨fun root path => ?_, by decide, by decide⟩
  rw [specToKey, specStripLeading_eq, specRootTrimmed_eq, s3Path]

theorem ddLoop_eq_amendedLoop (prev : Str) (fuel : Nat) :
    ∀ parent acc, ddLoop prev fuel parent acc
      = (specDirDiffAmendedLoop prev fuel parent).map (fun s => acc ++ s.reverse) := by
  induction fuel with
  | zero => intro parent acc; rfl
  | succ fuel ih =>
    intro parent acc
    rw [ddLoop, specDirDiffAmendedLoop]
    by_cases hstop : dirPath parent = ['/'] ∨ (dirPath parent).isPrefixOf prev
    · rw [if_pos hstop, if_pos ?_]
      · simp
      · rcases hstop with h | h
        · exact Or.inl h
        · exact Or.inr (Or.inr h)
    · rw [if_neg hstop, if_neg ?_]
      · rw [ih]
        rcases h : specDirDiffAmendedLoop prev fuel (dirPath parent) with _ | s
        · simp
        · simp [List.append_assoc]
      · rintro (h | h | h)
        · exact hstop (Or.inl h)
        · exact hstop (Or.inr (by simp [h, List.isPrefixOf_iff_prefix]))
        · exact hstop (Or.inr h)

/-- C5 (amended): directoryDiff walks parents of `current` upward, stopping
when the parent is "/" or `prev` starts with the parent (plain string prefix,
which subsumes equality), returning the collected directories shallowest
first, and returns the empty list when either argument is empty. -/
theorem directoryDiff_eq_spec_amended (prev current : Str) :
    directoryDiff prev current = specDirDiffAmended prev current := by
  rw [directoryDiff, specDirDiffAmended]
  by_cases h : prev = [] ∨ current = []
  · rw [if_pos h, if_pos h]
  · rw [if_neg h, if_neg h, ddLoop_eq_amendedLoop]
    rcases hs : specDirDiffAmendedLoop prev (current.length + 1) current with _ | s
    · rfl
    · simp

/-- C5 counterexample: with prev = "/ab" and current = "/a/c/q" the code stops
as soon as the parent "/a" is a plain prefix of prev, so it omits "/a", while
the claim's stop condition (prefix of parent + "/") would include it. -/
theorem directoryDiff_claim_counterexample :
    specDirDiffClaimed "/ab".toList "/a/c/q".toList
        = some ["/a".toList, "/a/c".toList] ∧
      directoryDiff "/ab".toList "/a/c/q".toList = some ["/a/c".toList] ∧
      specDirDiffClaimed "/ab".toList "/a/c/q".toList
        ≠ directoryDiff "/ab".toList "/a/c/q".toList := by
  refine ⟨by decide, by decide, by decide⟩

theorem parseError_not_already (k : Str) (c : ErrCode) :
    isAlreadyErr (parseError k c) = false := by
  cases c <;> rfl

theorem flushPart_basic (env : S3Env) (chunk : Nat) (w : WriterState) (e : Option WErr)
    (w' : WriterState) (tr : List S3Action) (h : flushPart env chunk w = (e, w', tr)) :
    flagsOf w' = flagsOf w ∧ w'.key = w.key ∧ w'.uploadID = w.uploadID ∧
      w'.size = w.size ∧ bufTotal w' = bufTotal w ∧
      (∀ err, e = some err → ∃ c, err = parseError w.key c) := by
  by_cases hg : w.readyPart = [] ∧ w.pendingPart = []
  · simp only [flushPart, if_pos hg, Prod.mk.injEq] at h
    obtain ⟨he, hw, ht⟩ := h
    subst hw
    refine ⟨rfl, rfl, rfl, rfl, rfl, fun err herr => ?_⟩
    rw [← he] at herr; cases herr
  · by_cases hlt : w.pendingPart.length < chunk
    · rcases hup : env.uploadPartResult (w.parts.length + 1) with c | etag
      · simp only [flushPart, if_neg hg, if_pos hlt, hup, Prod.mk.injEq] at h
        obtain ⟨he, hw, ht⟩ := h
        subst hw
        refine ⟨rfl, rfl, rfl, rfl, ?_, fun err herr => ⟨c, by rw [← he] at herr; cases herr; rfl⟩⟩
        simp [bufTotal, List.length_append]
        omega
      · simp only [flushPart, if_neg hg, if_pos hlt, hup, Prod.mk.injEq] at h
        obtain ⟨he, hw, ht⟩ := h
        subst hw
        refine ⟨rfl, rfl, rfl, rfl, ?_, fun err herr => by rw [← he] at herr; cases herr⟩
        simp [bufTotal, partsSizeSum, List.length_append]
        omega
    · rcases hup : env.uploadPartResult (w.parts.length + 1) with c | etag
      · simp only [flushPart, if_neg hg, if_neg hlt, hup, Prod.mk.injEq] at h
        obtain ⟨he, hw, ht⟩ := h
        subst hw
        exact ⟨rfl, rfl, rfl, rfl, rfl,
          fun err herr => ⟨c, by rw [← he] at herr; cases herr; rfl⟩⟩
      · simp only [flushPart, if_neg hg, if_neg hlt, hup, Prod.mk.injEq] at h
        obtain ⟨he, hw, ht⟩ := h
        subst hw
        refine ⟨rfl, rfl, rfl, rfl, ?_, fun err herr => by rw [← he] at herr; cases herr⟩
        simp [bufTotal, partsSizeSum]

theorem flushPart_ok_cases (env : S3Env) (chunk : Nat) (w : WriterState)
    (w' : WriterState) (tr : List S3Action) (h : flushPart env chunk w = (none, w', tr)) :
    (w.readyPart = [] ∧ w.pendingPart = [] ∧ w' = w) ∨
      (w.pendingPart.length < chunk ∧ ∃ etag, w' =
        { w with
          parts := w.parts ++ [⟨etag, w.parts.length + 1,
            w.readyPart.length + w.pendingPart.length⟩],
          readyPart := [], pendingPart := [] }) ∨
      (chunk ≤ w.pendingPart.length ∧ ∃ etag, w' =
        { w with
          parts := w.parts ++ [⟨etag, w.parts.length + 1, w.readyPart.length⟩],
          readyPart := w.pendingPart, pendingPart := [] }) := by
  by_cases hg : w.readyPart = [] ∧ w.pendingPart = []
  · simp only [flushPart, if_pos hg, Prod.mk.injEq] at h
    exact Or.inl ⟨hg.1, hg.2, h.2.1.symm⟩
  · by_cases hlt : w.pendingPart.length < chunk
    · rcases hup : env.uploadPartResult (w.parts.length + 1) with c | etag
      · simp only [flushPart, if_neg hg, if_pos hlt, hup, Prod.mk.injEq] at h
        exact absurd h.1 (by simp)
      · simp only [flushPart, if_neg hg, if_pos hlt, hup, Prod.mk.injEq] at h
        refine Or.inr (Or.inl ⟨hlt, etag, ?_⟩)
        rw [← h.2.1]
        congr 1
        simp [List.length_append]
    · rcases hup : env.uploadPartResult (w.parts.length + 1) with c | etag
      · simp only [flushPart, if_neg hg, if_neg hlt, hup, Prod.mk.injEq] at h
        exact absurd h.1 (by simp)
      · simp only [flushPart, if_neg hg, if_neg hlt, hup, Prod.mk.injEq] at h
        exact Or.inr (Or.inr ⟨Nat.le_of_not_lt hlt, etag, h.2.1.symm⟩)

theorem fillBuf_eq (chunk : Nat) (buf p : List Nat) :
    fillBuf chunk buf p
      = (buf ++ p.take (min (chunk - buf.length) p.length),
         p.drop (min (chunk - buf.length) p.length),
         min (chunk - buf.length) p.length) := by
  unfold fillBuf
  by_cases h1 : 0 < chunk - buf.length
  · by_cases h2 : chunk - buf.length ≤ p.length
    · rw [if_pos h1, if_pos h2, Nat.min_eq_left h2]
    · have h3 : min (chunk - buf.length) p.length = p.length := by omega
      rw [if_pos h1, if_neg h2, h3]
      simp
  · have h3 : min (chunk - buf.length) p.length = 0 := by omega
    rw [if_neg h1, h3]
    simp

theorem writeLoop_basic (env : S3Env) (chunk : Nat) :
    ∀ (fuel : Nat) (w : WriterState) (p : List Nat) (n : Nat) (acc : List S3Action)
      (n' : Nat) (e : Option WErr) (w' : WriterState) (tr : List S3Action),
      writeLoop env chunk fuel w p n acc = some (n', e, w', tr) →
      flagsOf w' = flagsOf w ∧ w'.key = w.key ∧ w'.uploadID = w.uploadID ∧
        w'.size = w.size ∧ n ≤ n' ∧ bufTotal w' + n = bufTotal w + n' ∧
        (∀ err, e = some err → ∃ c, err = parseError w.key c) := by
  intro fuel
  induction fuel with
  | zero => intro w p n acc n' e w' tr h; simp [writeLoop] at h
  | succ fuel ih =>
    intro w p n acc n' e w' tr h
    rw [writeLoop] at h
    by_cases hp : p = []
    · rw [if_pos hp] at h
      simp only [Option.some.injEq, Prod.mk.injEq] at h
      obtain ⟨h1, h2, h3, h4⟩ := h
      subst h1; subst h3
      exact ⟨rfl, rfl, rfl, rfl, Nat.le_refl n, rfl,
        fun err herr => by rw [← h2] at herr; cases herr⟩
    · rw [if_neg hp] at h
      simp only [fillBuf_eq] at h
      split at h
      · next hcond =>
        split at h
        · next e3 w3 tr3 heq =>
          simp only [Option.some.injEq, Prod.mk.injEq] at h
          obtain ⟨hn, he, hw, ht⟩ := h
          subst hn; subst hw; subst he
          obtain ⟨hf1, hf2, hf3, hf4, hf5, hf6⟩ := flushPart_basic _ _ _ _ _ _ heq
          simp only [flagsOf, bufTotal, partsSizeSum, List.length_append,
            List.length_take] at hf1 hf2 hf3 hf4 hf5 hf6 ⊢
          refine ⟨hf1, hf2, hf3, hf4, by omega, by omega, ?_⟩
          intro err herr
          cases herr
          exact hf6 e3 rfl
        · next w3 tr3 heq =>
          obtain ⟨hf1, hf2, hf3, hf4, hf5, hf6⟩ := flushPart_basic _ _ _ _ _ _ heq
          obtain ⟨hi1, hi2, hi3, hi4, hi5, hi6, hi7⟩ := ih _ _ _ _ _ _ _ _ h
          simp only [flagsOf, bufTotal, partsSizeSum, List.length_append,
            List.length_take] at hf1 hf2 hf3 hf4 hf5 hi1 hi2 hi3 hi4 hi6 hi7 ⊢
          refine ⟨hi1.trans hf1, hi2.trans hf2, hi3.trans hf3, hi4.trans hf4,
            by omega, by omega, ?_⟩
          intro err herr
          obtain ⟨c, hc⟩ := hi7 err herr
          exact ⟨c, by rw [hc, hf2]⟩
      · split at h
        · next hcond2 =>
          simp only [Option.some.injEq, Prod.mk.injEq] at h
          obtain ⟨hn, he, hw, ht⟩ := h
          subst hn; subst hw; subst he
          refine ⟨rfl, rfl, rfl, rfl, by omega, ?_, ?_⟩
          · simp only [bufTotal, partsSizeSum, List.length_append, List.length_take]
            omega
          · intro err herr
            cases herr
        · obtain ⟨hi1, hi2, hi3, hi4, hi5, hi6, hi7⟩ := ih _ _ _ _ _ _ _ _ h
          simp only [flagsOf, bufTotal, partsSizeSum, List.length_append,
            List.length_take] at hi1 hi2 hi3 hi4 hi6 hi7 ⊢
          exact ⟨hi1, hi2, hi3, hi4, by omega, by omega, hi7⟩

theorem minChunkSize_pos : 0 < minChunkSize := by decide

theorem writeLoop_inv (env : S3Env) (chunk : Nat) (hmc : minChunkSize ≤ chunk) :
    ∀ (fuel : Nat) (w : WriterState) (p : List Nat) (n : Nat) (acc : List S3Action)
      (n' : Nat) (w' : WriterState) (tr : List S3Action),
      w.readyPart.length ≤ chunk →
      w.pendingPart.length ≤ chunk →
      (w.pendingPart.length ≠ 0 → w.readyPart.length = chunk) →
      (∀ pt, w.parts.getLast? = some pt → minChunkSize ≤ pt.size) →
      writeLoop env chunk fuel w p n acc = some (n', none, w', tr) →
      w'.readyPart.length ≤ chunk ∧ w'.pendingPart.length ≤ chunk ∧
        (w'.pendingPart.length ≠ 0 → w'.readyPart.length = chunk) ∧
        (∀ pt, w'.parts.getLast? = some pt → minChunkSize ≤ pt.size) := by
  have hcpos : 0 < chunk := Nat.lt_of_lt_of_le minChunkSize_pos hmc
  intro fuel
  induction fuel with
  | zero => intro w p n acc n' w' tr _ _ _ _ h; simp [writeLoop] at h
  | succ fuel ih =>
    intro w p n acc n' w' tr hA hB hC hD h
    rw [writeLoop] at h
    by_cases hp : p = []
    · rw [if_pos hp] at h
      simp only [Option.some.injEq, Prod.mk.injEq] at h
      obtain ⟨h1, h2, h3, h4⟩ := h
      subst h3
      exact ⟨hA, hB, hC, hD⟩
    · rw [if_neg hp] at h
      simp only [fillBuf_eq] at h
      split at h
      · next hcond =>
        split at h
        · next e3 w3 tr3 heq =>
          simp at h
        · next w3 tr3 heq =>
          obtain ⟨hc1, hc2⟩ := hcond
          rcases flushPart_ok_cases _ _ _ _ _ heq with
            ⟨hr0, hp0, hw3⟩ | ⟨hlt, etag, hw3⟩ | ⟨hge, etag, hw3⟩
          · exfalso
            simp only [List.length_append, List.length_take, List.length_drop] at hc1 hc2
            have := congrArg List.length hp0
            simp only [List.length_append, List.length_take, List.length_drop,
              List.length_nil] at this
            omega
          · exfalso
            simp only [List.length_append, List.length_take, List.length_drop] at hc1 hc2 hlt
            omega
          · -- the flushed pending buffer was exactly chunk bytes
            subst hw3
            refine ih _ _ _ _ _ _ _ ?_ ?_ ?_ ?_ h
            · simp only [List.length_append, List.length_take, List.length_drop] at hc1 hc2 ⊢
              omega
            · simp
            · simp only [List.length_append, List.length_take, List.length_drop] at hc1 hc2 ⊢
              intro hne
              -- ready of recursive state is the old pending fill, of length chunk
              omega
            · intro pt hpt
              simp only [List.getLast?_concat] at hpt
              cases hpt
              simp only [List.length_append, List.length_take, List.length_drop] at hc1 hc2 ⊢
              -- the uploaded body was the full ready buffer of length chunk
              have hCl : w.pendingPart.length = 0 ∨ w.readyPart.length = chunk := by
                by_cases hpe : w.pendingPart.length = 0
                · exact Or.inl hpe
                · exact Or.inr (hC hpe)
              rcases hCl with hCl | hCl <;> omega
      · next hncond =>
        split at h
        · next hcond2 =>
          simp only [Option.some.injEq, Prod.mk.injEq] at h
          obtain ⟨h1, h2, h3, h4⟩ := h
          subst h3
          have hCl : w.pendingPart.length = 0 ∨ w.readyPart.length = chunk := by
            by_cases hpe : w.pendingPart.length = 0
            · exact Or.inl hpe
            · exact Or.inr (hC hpe)
          have hplen : ¬(0 < chunk - w.pendingPart.length ∧
              chunk - w.pendingPart.length ≤ (List.drop ((chunk - w.readyPart.length) ⊓ p.length) p).length) := hncond
          refine ⟨?_, ?_, ?_, hD⟩
          · simp only [List.length_append, List.length_take]
            omega
          · simp only [List.length_append, List.length_take, List.length_drop]
            simp only [List.length_drop] at hplen
            rcases hCl with hCl | hCl <;> omega
          · simp only [List.length_append, List.length_take, List.length_drop]
            intro hne
            have hpnonempty : p.length ≠ 0 := by
              intro h0
              exact hp (List.length_eq_zero.mp h0)
            rcases hCl with hCl | hCl <;> omega
        · refine ih _ _ _ _ _ _ _ ?_ ?_ ?_ ?_ h
          · simp only [List.length_append, List.length_take]
            omega
          · simpa using hB
          · simp only [List.length_append, List.length_take]
            intro hne
            have := hC (by simpa using hne)
            omega
          · exact hD

theorem smallTailRecovery_spec (env : S3Env) (w : WriterState) (e : Option WErr)
    (w1 : WriterState) (tr : List S3Action) (h : smallTailRecovery env w = (e, w1, tr)) :
    flagsOf w1 = flagsOf w ∧ w1.key = w.key ∧ w1.size = w.size ∧
      (∀ err, e = some err → isAlreadyErr err = false) ∧
      (∃ rest, tr = S3Action.completeUpload w.key w.uploadID
          (sortParts (w.parts.map fun pt => (pt.etag, pt.partNumber))) :: rest) := by
  unfold smallTailRecovery at h
  by_cases hok : env.completeOk = false
  · rw [if_pos hok] at h
    simp only [Prod.mk.injEq] at h
    obtain ⟨he, hw, ht⟩ := h
    subst hw
    refine ⟨rfl, rfl, rfl, fun err herr => ?_, ⟨_, ht.symm⟩⟩
    rw [← he] at herr
    cases herr
    exact parseError_not_already _ _
  · rw [if_neg hok] at h
    rcases hcr : env.createResult with c | newID <;> rw [hcr] at h
    · simp only [Prod.mk.injEq] at h
      obtain ⟨he, hw, ht⟩ := h
      subst hw
      refine ⟨rfl, rfl, rfl, fun err herr => ?_, ⟨_, ht.symm⟩⟩
      rw [← he] at herr
      cases herr
      exact parseError_not_already _ _
    · by_cases hsz : w.size < minChunkSize
      · simp only [if_pos hsz] at h
        rcases hget : env.getObjectResult with c | ⟨bytes, readErr⟩ <;> rw [hget] at h
        · simp only [Prod.mk.injEq] at h
          obtain ⟨he, hw, ht⟩ := h
          subst hw
          refine ⟨rfl, rfl, rfl, fun err herr => ?_, ⟨_, ht.symm⟩⟩
          rw [← he] at herr
          cases herr
          exact parseError_not_already _ _
        · rcases readErr with _ | rerr
          · simp only [Prod.mk.injEq] at h
            obtain ⟨he, hw, ht⟩ := h
            subst hw
            refine ⟨rfl, rfl, rfl, fun err herr => ?_, ⟨_, ht.symm⟩⟩
            rw [← he] at herr
            cases herr
          · simp only [Prod.mk.injEq] at h
            obtain ⟨he, hw, ht⟩ := h
            subst hw
            refine ⟨rfl, rfl, rfl, fun err herr => ?_, ⟨_, ht.symm⟩⟩
            rw [← he] at herr
            cases herr
            rfl
      · simp only [if_neg hsz] at h
        rcases hcp : env.copyResult with c | etag <;> rw [hcp] at h
        · simp only [Prod.mk.injEq] at h
          obtain ⟨he, hw, ht⟩ := h
          subst hw
          refine ⟨rfl, rfl, rfl, fun err herr => ?_, ⟨_, ht.symm⟩⟩
          rw [← he] at herr
          cases herr
          exact parseError_not_already _ _
        · simp only [Prod.mk.injEq] at h
          obtain ⟨he, hw, ht⟩ := h
          subst hw
          refine ⟨rfl, rfl, rfl, fun err herr => ?_, ⟨_, ht.symm⟩⟩
          rw [← he] at herr
          cases herr

theorem finishWrite_spec (env : S3Env) (chunk : Nat) (w : WriterState) (p : List Nat)
    (tr0 : List S3Action) (n' : Nat) (e : Option WErr) (w' : WriterState)
    (tr : List S3Action) (h : finishWrite env chunk w p tr0 = some (n', e, w', tr)) :
    flagsOf w' = flagsOf w ∧ w'.key = w.key ∧ w'.uploadID = w.uploadID ∧
      w'.size = w.size + n' ∧ bufTotal w' = bufTotal w + n' ∧
      (∀ err, e = some err → ∃ c, err = parseError w.key c) := by
  rcases hwl : writeLoop env chunk (p.length + 1) w p 0 tr0 with _ | ⟨n2, e2, w2, tr2⟩
  · rw [finishWrite, hwl] at h; cases h
  · rw [finishWrite, hwl] at h
    simp only [Option.map_some', Option.some.injEq, Prod.mk.injEq] at h
    obtain ⟨hn, he, hw, ht⟩ := h
    subst hn; subst hw
    obtain ⟨hb1, hb2, hb3, hb4, hb5, hb6, hb7⟩ := writeLoop_basic _ _ _ _ _ _ _ _ _ _ _ hwl
    refine ⟨hb1, hb2, hb3, by rw [hb4], ?_, fun err herr => hb7 err (by rw [he]; exact herr)⟩
    have h6 := hb6
    simp only [bufTotal] at h6 ⊢
    omega

theorem writerWrite_basic (env : S3Env) (chunk : Nat) (w : WriterState) (p : List Nat)
    (n : Nat) (e : Option WErr) (w' : WriterState) (tr : List S3Action)
    (h : writerWrite env chunk w p = some (n, e, w', tr)) :
    flagsOf w' = flagsOf w ∧ w'.key = w.key ∧
      (w.closed = false → w.committed = false → w.cancelled = false →
        ∀ err, e = some err → isAlreadyErr err = false) := by
  unfold writerWrite at h
  by_cases hcl : w.closed = true
  · rw [if_pos hcl] at h
    simp only [Option.some.injEq, Prod.mk.injEq] at h
    obtain ⟨_, _, hw, _⟩ := h
    subst hw
    exact ⟨rfl, rfl, fun hc _ _ _ _ => by rw [hc] at hcl; cases hcl⟩
  · rw [if_neg hcl] at h
    by_cases hcm : w.committed = true
    · rw [if_pos hcm] at h
      simp only [Option.some.injEq, Prod.mk.injEq] at h
      obtain ⟨_, _, hw, _⟩ := h
      subst hw
      exact ⟨rfl, rfl, fun _ hc _ _ _ => by rw [hc] at hcm; cases hcm⟩
    · rw [if_neg hcm] at h
      by_cases hca : w.cancelled = true
      · rw [if_pos hca] at h
        simp only [Option.some.injEq, Prod.mk.injEq] at h
        obtain ⟨_, _, hw, _⟩ := h
        subst hw
        exact ⟨rfl, rfl, fun _ _ hc _ _ => by rw [hc] at hca; cases hca⟩
      · rw [if_neg hca] at h
        by_cases hshort : lastPartShort w = true
        · rw [if_pos hshort] at h
          rcases hrec : smallTailRecovery env w with ⟨e1, w1, tr1⟩
          rw [hrec] at h
          obtain ⟨hs1, hs2, hs3, hs4, hs5⟩ := smallTailRecovery_spec _ _ _ _ _ hrec
          rcases e1 with _ | err1
          · obtain ⟨hf1, hf2, hf3, hf4, hf5, hf6⟩ := finishWrite_spec _ _ _ _ _ _ _ _ _ h
            refine ⟨hf1.trans hs1, hf2.trans hs2, fun _ _ _ err herr => ?_⟩
            obtain ⟨c, hc⟩ := hf6 err herr
            rw [hc, hs2]
            exact parseError_not_already _ _
          · simp only [Option.some.injEq, Prod.mk.injEq] at h
            obtain ⟨_, he, hw, _⟩ := h
            subst hw
            refine ⟨hs1, hs2, fun _ _ _ err herr => ?_⟩
            rw [← he] at herr
            injection herr with herr2
            rw [← herr2]
            exact hs4 err1 rfl
        · rw [if_neg hshort] at h
          obtain ⟨hf1, hf2, hf3, hf4, hf5, hf6⟩ := finishWrite_spec _ _ _ _ _ _ _ _ _ h
          refine ⟨hf1, hf2, fun _ _ _ err herr => ?_⟩
          obtain ⟨c, hc⟩ := hf6 err herr
          rw [hc]
          exact parseError_not_already _ _

theorem writerClose_ok (env : S3Env) (chunk : Nat) (w w' : WriterState) (tr : List S3Action)
    (h : writerClose env chunk w = (none, w', tr)) :
    w.closed = false ∧ w'.closed = true ∧ w'.committed = w.committed ∧
      w'.cancelled = w.cancelled ∧ w'.key = w.key := by
  unfold writerClose at h
  by_cases hcl : w.closed = true
  · rw [if_pos hcl] at h
    simp at h
  · rw [if_neg hcl] at h
    obtain ⟨hf1, hf2, hf3, hf4, hf5, hf6⟩ := flushPart_basic _ _ _ _ _ _ h
    simp only [flagsOf, Prod.mk.injEq] at hf1
    refine ⟨by simpa using hcl, ?_, ?_, ?_, hf2⟩
    · rw [hf1.1]
    · rw [hf1.2.1]
    · rw [hf1.2.2]

theorem writerCancel_ok (env : S3Env) (w w' : WriterState) (tr : List S3Action)
    (h : writerCancel env w = (none, w', tr)) :
    w.closed = false ∧ w.committed = false ∧ env.abortResult = none ∧
      w' = { w with cancelled := true } := by
  unfold writerCancel at h
  by_cases hcl : w.closed = true
  · rw [if_pos hcl] at h; simp at h
  · rw [if_neg hcl] at h
    by_cases hcm : w.committed = true
    · rw [if_pos hcm] at h; simp at h
    · rw [if_neg hcm] at h
      simp only [Prod.mk.injEq] at h
      obtain ⟨he, hw, ht⟩ := h
      refine ⟨by simpa using hcl, by simpa using hcm, ?_, hw.symm⟩
      rcases hab : env.abortResult with _ | c
      · rfl
      · rw [hab] at he; simp at he

theorem writerCommit_ok (env : S3Env) (chunk : Nat) (w w' : WriterState) (tr : List S3Action)
    (h : writerCommit env chunk w = (none, w', tr)) :
    w.closed = false ∧ w.committed = false ∧ w.cancelled = false ∧
      w'.closed = false ∧ w'.committed = true ∧ w'.cancelled = false ∧ w'.key = w.key ∧
      (w.pendingPart.length < chunk → w'.readyPart = [] ∧ w'.pendingPart = []) := by
  unfold writerCommit at h
  by_cases hcl : w.closed = true
  · rw [if_pos hcl] at h; simp at h
  · rw [if_neg hcl] at h
    by_cases hcm : w.committed = true
    · rw [if_pos hcm] at h; simp at h
    · rw [if_neg hcm] at h
      by_cases hca : w.cancelled = true
      · rw [if_pos hca] at h; simp at h
      · rw [if_neg hca] at h
        rcases hfl : flushPart env chunk w with ⟨e1, w1, tr1⟩
        rw [hfl] at h
        rcases e1 with _ | err1
        · dsimp only at h
          by_cases hok : env.completeOk = true
          · rw [if_pos hok] at h
            simp only [Prod.mk.injEq] at h
            obtain ⟨_, hw, _⟩ := h
            obtain ⟨hf1, hf2, hf3, hf4, hf5, hf6⟩ := flushPart_basic _ _ _ _ _ _ hfl
            simp only [flagsOf, Prod.mk.injEq] at hf1
            subst hw
            refine ⟨by simpa using hcl, by simpa using hcm, by simpa using hca,
              by simp [hf1.1]; simpa using hcl, by simp, by simp [hf1.2.2]; simpa using hca,
              by simpa using hf2, fun hlt => ?_⟩
            rcases flushPart_ok_cases _ _ _ _ _ hfl with
              ⟨hr0, hp0, hw1⟩ | ⟨_, etag, hw1⟩ | ⟨hge, _, _⟩
            · subst hw1; exact ⟨by simpa using hr0, by simpa using hp0⟩
            · subst hw1; exact ⟨by simp, by simp⟩
            · omega
          · rw [if_neg hok] at h
            simp at h
        · dsimp only at h
          simp at h

theorem writerClose_flags_any (env : S3Env) (chunk : Nat) (w : WriterState)
    (e : Option WErr) (w' : WriterState) (tr : List S3Action)
    (h : writerClose env chunk w = (e, w', tr)) :
    (w' = w ∧ e = some .alreadyClosed) ∨
      (w'.closed = true ∧ w'.committed = w.committed ∧ w'.cancelled = w.cancelled) := by
  unfold writerClose at h
  by_cases hcl : w.closed = true
  · rw [if_pos hcl] at h
    simp only [Prod.mk.injEq] at h
    exact Or.inl ⟨h.2.1.symm, h.1.symm⟩
  · rw [if_neg hcl] at h
    obtain ⟨hf1, _, _, _, _, _⟩ := flushPart_basic _ _ _ _ _ _ h
    simp only [flagsOf, Prod.mk.injEq] at hf1
    exact Or.inr ⟨hf1.1, hf1.2.1, hf1.2.2⟩

theorem writerCancel_flags_any (env : S3Env) (w : WriterState)
    (e : Option WErr) (w' : WriterState) (tr : List S3Action)
    (h : writerCancel env w = (e, w', tr)) :
    w' = w ∨
      (w.committed = false ∧ w'.cancelled = true ∧ w'.closed = w.closed ∧
        w'.committed = w.committed) := by
  unfold writerCancel at h
  by_cases hcl : w.closed = true
  · rw [if_pos hcl] at h
    simp only [Prod.mk.injEq] at h
    exact Or.inl h.2.1.symm
  · rw [if_neg hcl] at h
    by_cases hcm : w.committed = true
    · rw [if_pos hcm] at h
      simp only [Prod.mk.injEq] at h
      exact Or.inl h.2.1.symm
    · rw [if_neg hcm] at h
      simp only [Prod.mk.injEq] at h
      obtain ⟨_, hw, _⟩ := h
      subst hw
      exact Or.inr ⟨by simpa using hcm, rfl, rfl, rfl⟩

theorem writerCommit_flags_any (env : S3Env) (chunk : Nat) (w : WriterState)
    (e : Option WErr) (w' : WriterState) (tr : List S3Action)
    (h : writerCommit env chunk w = (e, w', tr)) :
    w' = w ∨
      (w.cancelled = false ∧ w'.closed = w.closed ∧ w'.cancelled = w.cancelled ∧
        (w'.committed = true ∨ w'.committed = w.committed)) := by
  unfold writerCommit at h
  by_cases hcl : w.closed = true
  · rw [if_pos hcl] at h
    simp only [Prod.mk.injEq] at h
    exact Or.inl h.2.1.symm
  · rw [if_neg hcl] at h
    by_cases hcm : w.committed = true
    · rw [if_pos hcm] at h
      simp only [Prod.mk.injEq] at h
      exact Or.inl h.2.1.symm
    · rw [if_neg hcm] at h
      by_cases hca : w.cancelled = true
      · rw [if_pos hca] at h
        simp only [Prod.mk.injEq] at h
        exact Or.inl h.2.1.symm
      · rw [if_neg hca] at h
        rcases hfl : flushPart env chunk w with ⟨e1, w1, tr1⟩
        rw [hfl] at h
        obtain ⟨hf1, _, _, _, _, _⟩ := flushPart_basic _ _ _ _ _ _ hfl
        simp only [flagsOf, Prod.mk.injEq] at hf1
        rcases e1 with _ | err1
        · dsimp only at h
          by_cases hok : env.completeOk = true
          · rw [if_pos hok] at h
            simp only [Prod.mk.injEq] at h
            obtain ⟨_, hw, _⟩ := h
            subst hw
            exact Or.inr ⟨by simpa using hca, by simpa using hf1.1,
              by simpa using hf1.2.2, Or.inl rfl⟩
          · rw [if_neg hok] at h
            simp only [Prod.mk.injEq] at h
            obtain ⟨_, hw, _⟩ := h
            subst hw
            exact Or.inr ⟨by simpa using hca, by simpa using hf1.1,
              by simpa using hf1.2.2, Or.inl rfl⟩
        · dsimp only at h
          simp only [Prod.mk.injEq] at h
          obtain ⟨_, hw, _⟩ := h
          subst hw
          exact Or.inr ⟨by simpa using hca, hf1.1, hf1.2.2, Or.inr hf1.2.1⟩

/-- C2 (amended): on every reachable writer state, committed and cancelled are
mutually exclusive; flags are never cleared by any call; and once any flag is
set every subsequent Write fails with an already-terminated error.  However,
closed is not mutually exclusive with the other two flags: Close guards only
on the closed flag, so Close after a successful Commit or Cancel also sets
closed (see the counterexample). -/
theorem writer_flag_exclusion_amended (chunk : Nat) :
    (∀ key uploadID parts w, WReachable chunk (newWriter key uploadID parts) w →
        ¬(w.committed = true ∧ w.cancelled = true)) ∧
      (∀ w w', WStep chunk w w' →
        (w.closed = true → w'.closed = true) ∧
          (w.committed = true → w'.committed = true) ∧
          (w.cancelled = true → w'.cancelled = true)) ∧
      (∀ env w p, w.closed = true ∨ w.committed = true ∨ w.cancelled = true →
        ∃ e, writerWrite env chunk w p = some (0, some e, w, []) ∧
          isAlreadyErr e = true) := by
  have hstep : ∀ w w', WStep chunk w w' →
      ((w.closed = true → w'.closed = true) ∧
        (w.committed = true → w'.committed = true) ∧
        (w.cancelled = true → w'.cancelled = true)) ∧
      (¬(w.committed = true ∧ w.cancelled = true) →
        ¬(w'.committed = true ∧ w'.cancelled = true)) := by
    intro w w' hs
    rcases hs with ⟨env, p, _, _, n, e, tr, h⟩ | ⟨env, _, _, e, tr, h⟩ |
      ⟨env, _, _, e, tr, h⟩ | ⟨env, _, _, e, tr, h⟩
    · obtain ⟨hf, _, _⟩ := writerWrite_basic _ _ _ _ _ _ _ _ h
      simp only [flagsOf, Prod.mk.injEq] at hf
      exact ⟨⟨fun hh => by rw [hf.1, hh], fun hh => by rw [hf.2.1, hh],
          fun hh => by rw [hf.2.2, hh]⟩,
        fun hp hc => hp ⟨by rw [← hf.2.1, hc.1], by rw [← hf.2.2, hc.2]⟩⟩
    · rcases writerClose_flags_any _ _ _ _ _ _ h with ⟨hw, _⟩ | ⟨h1, h2, h3⟩
      · subst hw; exact ⟨⟨id, id, id⟩, id⟩
      · exact ⟨⟨fun _ => h1, fun hh => by rw [h2, hh], fun hh => by rw [h3, hh]⟩,
          fun hp hc => hp ⟨by rw [← h2, hc.1], by rw [← h3, hc.2]⟩⟩
    · rcases writerCancel_flags_any _ _ _ _ _ h with hw | ⟨h1, h2, h3, h4⟩
      · subst hw; exact ⟨⟨id, id, id⟩, id⟩
      · refine ⟨⟨fun hh => by rw [h3, hh], fun hh => by rw [h4, hh], fun _ => h2⟩,
          fun _ hc => ?_⟩
        rw [h4, h1] at hc
        exact Bool.false_ne_true hc.1
    · rcases writerCommit_flags_any _ _ _ _ _ _ h with hw | ⟨h1, h2, h3, _⟩
      · subst hw; exact ⟨⟨id, id, id⟩, id⟩
      · refine ⟨⟨fun hh => by rw [h2, hh], ?_, fun hh => by rw [h3, hh]⟩,
          fun _ hc => ?_⟩
        · intro hh
          rcases writerCommit_flags_any _ _ _ _ _ _ h with hw | ⟨_, _, _, h4 | h4⟩
          · rw [hw]; exact hh
          · exact h4
          · rw [h4]; exact hh
        · rw [h3, h1] at hc
          exact Bool.false_ne_true hc.2
  refine ⟨?_, fun w w' hs => (hstep w w' hs).1, ?_⟩
  · intro key uploadID parts w hreach
    induction hreach with
    | refl => simp [newWriter]
    | tail hsteps hs ih => exact (hstep _ _ hs).2 ih
  · intro env w p hflag
    by_cases hcl : w.closed = true
    · exact ⟨.alreadyClosed, by unfold writerWrite; rw [if_pos hcl], rfl⟩
    · by_cases hcm : w.committed = true
      · exact ⟨.alreadyCommitted, by unfold writerWrite; rw [if_neg hcl, if_pos hcm], rfl⟩
      · by_cases hca : w.cancelled = true
        · exact ⟨.alreadyCancelled,
            by unfold writerWrite; rw [if_neg hcl, if_neg hcm, if_pos hca], rfl⟩
        · rcases hflag with h | h | h
          · exact absurd h hcl
          · exact absurd h hcm
          · exact absurd h hca

theorem writer_flag_exclusion_amended_witness :
    ¬((newWriter ['k'] ['u'] []).committed = true ∧
        (newWriter ['k'] ['u'] []).cancelled = true) ∧
      ∃ e, writerWrite envOkAll 2 { newWriter ['k'] ['u'] [] with closed := true } [1]
          = some (0, some e, { newWriter ['k'] ['u'] [] with closed := true }, []) ∧
        isAlreadyErr e = true :=
  ⟨(writer_flag_exclusion_amended 2).1 ['k'] ['u'] [] _ Relation.ReflTransGen.refl,
    (writer_flag_exclusion_amended 2).2.2 envOkAll _ [1] (Or.inl rfl)⟩

/-- C2 counterexample: from a fresh writer, Commit succeeds, and then Close
also succeeds and sets closed, leaving closed and committed simultaneously
true, so the three flags are not mutually exclusive. -/
theorem writer_flag_exclusion_counterexample :
    (writerCommit envOkAll 2 (newWriter ['k'] ['u'] [])).1 = none ∧
      (writerClose envOkAll 2
          ((writerCommit envOkAll 2 (newWriter ['k'] ['u'] [])).2.1)).1 = none ∧
      (writerClose envOkAll 2
          ((writerCommit envOkAll 2 (newWriter ['k'] ['u'] [])).2.1)).2.1.closed = true ∧
      (writerClose envOkAll 2
          ((writerCommit envOkAll 2 (newWriter ['k'] ['u'] [])).2.1)).2.1.committed
        = true := by
  exact ⟨by decide, by decide, by decide, by decide⟩

/-- C3 (amended): after a successful Close, every further terminal call fails
with already-closed.  After a successful Commit, Cancel and Commit fail with
already-committed, but Close is not rejected: it proceeds (and, the buffers
being empty after a Commit whose pending buffer was below chunk size, it
succeeds, setting closed).  After a successful Cancel, Commit fails with
already-cancelled, but Cancel and Close are not rejected: a second Cancel
re-issues the abort and succeeds when the abort succeeds, and Close succeeds
when the buffers are empty. -/
theorem writer_terminal_idempotence_amended (chunk : Nat) (w : WriterState)
    (env1 env2 : S3Env) :
    (∀ w' tr, writerClose env1 chunk w = (none, w', tr) →
      (writerClose env2 chunk w').1 = some .alreadyClosed ∧
        (writerCancel env2 w').1 = some .alreadyClosed ∧
        (writerCommit env2 chunk w').1 = some .alreadyClosed) ∧
      (∀ w' tr, writerCommit env1 chunk w = (none, w', tr) →
        (writerCancel env2 w').1 = some .alreadyCommitted ∧
          (writerCommit env2 chunk w').1 = some .alreadyCommitted ∧
          (w.pendingPart.length < chunk → (writerClose env2 chunk w').1 = none)) ∧
      (∀ w' tr, writerCancel env1 w = (none, w', tr) →
        (writerCommit env2 chunk w').1 = some .alreadyCancelled ∧
          (env2.abortResult = none → (writerCancel env2 w').1 = none) ∧
          (w.readyPart = [] → w.pendingPart = [] →
            (writerClose env2 chunk w').1 = none)) := by
  refine ⟨?_, ?_, ?_⟩
  · intro w' tr h
    obtain ⟨_, hcl', _, _, _⟩ := writerClose_ok _ _ _ _ _ h
    exact ⟨by simp [writerClose, hcl'], by simp [writerCancel, hcl'],
      by simp [writerCommit, hcl']⟩
  · intro w' tr h
    obtain ⟨_, _, _, hcl', hcm', hca', _, hbuf⟩ := writerCommit_ok _ _ _ _ _ h
    refine ⟨by simp [writerCancel, hcl', hcm'], by simp [writerCommit, hcl', hcm'],
      fun hlt => ?_⟩
    obtain ⟨hr, hp⟩ := hbuf hlt
    simp [writerClose, hcl', flushPart, hr, hp]
  · intro w' tr h
    obtain ⟨hcl, hcm, _, hw'⟩ := writerCancel_ok _ _ _ _ h
    subst hw'
    refine ⟨by simp [writerCommit, hcl, hcm], fun hab => ?_, fun hr hp => ?_⟩
    · simp [writerCancel, hcl, hcm, hab]
    · simp [writerClose, hcl, flushPart, hr, hp]

theorem writer_terminal_idempotence_amended_witness :
    ((writerCancel envOkAll
          { newWriter ['k'] ['u'] [] with parts := [⟨101, 1, 1⟩], committed := true }).1
        = some .alreadyCommitted ∧
      (writerCommit envOkAll 2
          { newWriter ['k'] ['u'] [] with parts := [⟨101, 1, 1⟩], committed := true }).1
        = some .alreadyCommitted ∧
      ({ newWriter ['k'] ['u'] [] with pendingPart := [1] }.pendingPart.length < 2 →
        (writerClose envOkAll 2
            { newWriter ['k'] ['u'] [] with
              parts := [⟨101, 1, 1⟩],
              committed := true }).1 = none)) :=
  (writer_terminal_idempotence_amended 2
      { newWriter ['k'] ['u'] [] with pendingPart := [1] } envOkAll envOkAll).2.1
    { newWriter ['k'] ['u'] [] with parts := [⟨101, 1, 1⟩], committed := true }
    [S3Action.uploadPart ['k'] ['u'] 1 [1], S3Action.completeUpload ['k'] ['u'] [(101, 1)]]
    (by decide)

/-- C3 counterexample: Commit succeeds on a fresh writer, and the next
terminal invocation, Close, also succeeds (returns no error) instead of
failing with an already-terminated error. -/
theorem writer_terminal_idempotence_counterexample :
    (writerCommit envOkAll 2 (newWriter ['k'] ['u'] [])).1 = none ∧
      ((writerCommit envOkAll 2 (newWriter ['k'] ['u'] [])).2.1).committed = true ∧
      (writerClose envOkAll 2
          ((writerCommit envOkAll 2 (newWriter ['k'] ['u'] [])).2.1)).1 = none := by
  exact ⟨by decide, by decide, by decide⟩

theorem writerOps_guardfree_errors (env2 : S3Env) (chunk : Nat) (w' : WriterState)
    (hcl : w'.closed = false) (hcm : w'.committed = false) (hca : w'.cancelled = false) :
    (∀ e2, (writerClose env2 chunk w').1 = some e2 → isAlreadyErr e2 = false) ∧
      (∀ e2, (writerCancel env2 w').1 = some e2 → isAlreadyErr e2 = false) ∧
      (∀ e2, (writerCommit env2 chunk w').1 = some e2 → isAlreadyErr e2 = false) := by
  refine ⟨?_, ?_, ?_⟩
  · intro e2 h2
    rw [writerClose, if_neg (by simp [hcl])] at h2
    rcases hfl : flushPart env2 chunk { w' with closed := true } with ⟨e3, w3, tr3⟩
    rw [hfl] at h2
    obtain ⟨_, _, _, _, _, herr⟩ := flushPart_basic _ _ _ _ _ _ hfl
    obtain ⟨c, hc⟩ := herr e2 h2
    rw [hc]
    exact parseError_not_already _ _
  · intro e2 h2
    rw [writerCancel, if_neg (by simp [hcl]), if_neg (by simp [hcm])] at h2
    rcases hab : env2.abortResult with _ | c
    · rw [hab] at h2; cases h2
    · rw [hab] at h2
      simp only [Option.map_some', Option.some.injEq] at h2
      rw [← h2]
      exact parseError_not_already _ _
  · intro e2 h2
    rw [writerCommit, if_neg (by simp [hcl]), if_neg (by simp [hcm]),
      if_neg (by simp [hca])] at h2
    rcases hfl : flushPart env2 chunk w' with ⟨e3, w3, tr3⟩
    rw [hfl] at h2
    obtain ⟨_, _, _, _, _, herr⟩ := flushPart_basic _ _ _ _ _ _ hfl
    rcases e3 with _ | err3
    · dsimp only at h2
      by_cases hok : env2.completeOk = true
      · rw [if_pos hok] at h2; cases h2
      · rw [if_neg hok] at h2
        simp only [Option.some.injEq] at h2
        rw [← h2]
        exact parseError_not_already _ _
    · dsimp only at h2
      simp only [Option.some.injEq] at h2
      rw [← h2]
      obtain ⟨c, hc⟩ := herr err3 rfl
      rw [hc]
      exact parseError_not_already _ _

/-- C10: when the part upload performed inside Write fails (no small-tail
recovery involved and no terminal flag set), Write returns the number of
bytes it had consumed together with the error, size grows by exactly that
count, the consumed bytes remain held by the writer (entirely in the two
buffers whenever no part was recorded), no terminal flag is set, and each of
Write, Close, Cancel and Commit remains accepted afterwards: none of them can
return an already-terminated error. -/
theorem write_flush_failure_spec (env : S3Env) (chunk : Nat) (w : WriterState)
    (p : List Nat) (n : Nat) (err : WErr) (w' : WriterState) (tr : List S3Action)
    (hcl : w.closed = false) (hcm : w.committed = false) (hca : w.cancelled = false)
    (hshort : lastPartShort w = false)
    (h : writerWrite env chunk w p = some (n, some err, w', tr)) :
    w'.size = w.size + n ∧
      w'.closed = false ∧ w'.committed = false ∧ w'.cancelled = false ∧
      bufTotal w' = bufTotal w + n ∧
      (w'.parts = w.parts →
        w'.readyPart.length + w'.pendingPart.length
          = w.readyPart.length + w.pendingPart.length + n) ∧
      isAlreadyErr err = false ∧
      (∀ env2 p2 r, writerWrite env2 chunk w' p2 = some r →
        ∀ e2, r.2.1 = some e2 → isAlreadyErr e2 = false) ∧
      (∀ env2 e2, (writerClose env2 chunk w').1 = some e2 → isAlreadyErr e2 = false) ∧
      (∀ env2 e2, (writerCancel env2 w').1 = some e2 → isAlreadyErr e2 = false) ∧
      (∀ env2 e2, (writerCommit env2 chunk w').1 = some e2 → isAlreadyErr e2 = false) := by
  rw [writerWrite, if_neg (by simp [hcl]), if_neg (by simp [hcm]),
    if_neg (by simp [hca]), if_neg (by simp [hshort])] at h
  obtain ⟨hf1, hf2, hf3, hf4, hf5, hf6⟩ := finishWrite_spec _ _ _ _ _ _ _ _ _ h
  simp only [flagsOf, Prod.mk.injEq] at hf1
  have hcl' : w'.closed = false := by rw [hf1.1, hcl]
  have hcm' : w'.committed = false := by rw [hf1.2.1, hcm]
  have hca' : w'.cancelled = false := by rw [hf1.2.2, hca]
  obtain ⟨hg1, hg2, hg3⟩ := writerOps_guardfree_errors env chunk w' hcl' hcm' hca'
  refine ⟨hf4, hcl', hcm', hca', hf5, ?_, ?_, ?_, ?_, ?_, ?_⟩
  · intro hparts
    have := hf5
    simp only [bufTotal, hparts] at this
    omega
  · obtain ⟨c, hc⟩ := hf6 err rfl
    rw [hc]
    exact parseError_not_already _ _
  · intro env2 p2 r h2 e2 he2
    rcases r with ⟨n2, e2', w2, tr2⟩
    obtain ⟨_, _, hguard⟩ := writerWrite_basic _ _ _ _ _ _ _ _ h2
    exact hguard hcl' hcm' hca' e2 he2
  · intro env2 e2 h2
    exact ((writerOps_guardfree_errors env2 chunk w' hcl' hcm' hca').1) e2 h2
  · intro env2 e2 h2
    exact ((writerOps_guardfree_errors env2 chunk w' hcl' hcm' hca').2.1) e2 h2
  · intro env2 e2 h2
    exact ((writerOps_guardfree_errors env2 chunk w' hcl' hcm' hca').2.2) e2 h2

theorem write_flush_failure_spec_witness :
    ({ newWriter ['k'] ['u'] [] with
        size := 4, readyPart := [1, 2], pendingPart := [3, 4] } : WriterState).size
        = (newWriter ['k'] ['u'] []).size + 4 ∧
      bufTotal { newWriter ['k'] ['u'] [] with
          size := 4, readyPart := [1, 2], pendingPart := [3, 4] }
        = bufTotal (newWriter ['k'] ['u'] []) + 4 ∧
      isAlreadyErr (.backend (.other 5)) = false :=
  have happ := write_flush_failure_spec envUploadFails 2 (newWriter ['k'] ['u'] [])
    [1, 2, 3, 4] 4 (.backend (.other 5))
    { newWriter ['k'] ['u'] [] with size := 4, readyPart := [1, 2], pendingPart := [3, 4] }
    [S3Action.uploadPart ['k'] ['u'] 1 [1, 2]]
    (by decide) (by decide) (by decide) (by decide) (by decide)
  ⟨happ.1, happ.2.2.2.2.1, happ.2.2.2.2.2.2.1⟩

theorem insertPart_perm (c : CompletedPart) (l : List CompletedPart) :
    List.Perm (insertPart c l) (c :: l) := by
  induction l with
  | nil => rfl
  | cons d ds ih =>
    rw [insertPart]
    by_cases h : c.2 ≤ d.2
    · rw [if_pos h]
    · rw [if_neg h]
      exact (ih.cons d).trans (List.Perm.swap c d ds)

theorem insertPart_sorted (c : CompletedPart) (l : List CompletedPart)
    (h : List.Pairwise (fun a b : CompletedPart => a.2 ≤ b.2) l) :
    List.Pairwise (fun a b : CompletedPart => a.2 ≤ b.2) (insertPart c l) := by
  induction l with
  | nil => simp [insertPart]
  | cons d ds ih =>
    rw [insertPart]
    rcases List.pairwise_cons.mp h with ⟨hd, hds⟩
    by_cases hc : c.2 ≤ d.2
    · rw [if_pos hc]
      refine List.pairwise_cons.mpr ⟨?_, h⟩
      intro x hx
      rcases List.mem_cons.mp hx with rfl | hx
      · exact hc
      · exact Nat.le_trans hc (hd x hx)
    · rw [if_neg hc]
      refine List.pairwise_cons.mpr ⟨?_, ih hds⟩
      intro x hx
      rcases List.mem_cons.mp ((insertPart_perm c ds).mem_iff.mp hx) with rfl | hx
      · exact Nat.le_of_not_le hc
      · exact hd x hx

theorem sortParts_perm (l : List CompletedPart) : List.Perm (sortParts l) l := by
  induction l with
  | nil => rfl
  | cons c cs ih =>
    rw [sortParts, List.foldr_cons]
    exact (insertPart_perm c (cs.foldr insertPart [])).trans (ih.cons c)

theorem sortParts_sorted (l : List CompletedPart) :
    List.Pairwise (fun a b : CompletedPart => a.2 ≤ b.2) (sortParts l) := by
  induction l with
  | nil => simp [sortParts]
  | cons c cs ih =>
    rw [sortParts, List.foldr_cons]
    exact insertPart_sorted c _ ih

theorem smallTailRecovery_completeFail (env : S3Env) (w : WriterState)
    (hok : env.completeOk = false) :
    smallTailRecovery env w = (some (parseError w.key env.completeErr), w,
      [S3Action.completeUpload w.key w.uploadID
          (sortParts (w.parts.map fun pt => (pt.etag, pt.partNumber))),
        S3Action.abortUpload w.key w.uploadID]) := by
  unfold smallTailRecovery
  rw [if_pos hok]

theorem smallTailRecovery_getObject (env : S3Env) (w : WriterState) (newID : Str)
    (bytes : List Nat) (hok : env.completeOk = true) (hcr : env.createResult = .ok newID)
    (hsz : w.size < minChunkSize) (hget : env.getObjectResult = .ok (bytes, none)) :
    smallTailRecovery env w = (none,
      { w with uploadID := newID, parts := [], readyPart := bytes },
      [S3Action.completeUpload w.key w.uploadID
          (sortParts (w.parts.map fun pt => (pt.etag, pt.partNumber))),
        S3Action.createUpload w.key, S3Action.getObject w.key]) := by
  unfold smallTailRecovery
  rw [if_neg (by simp [hok]), hcr]
  dsimp only
  rw [if_pos hsz, hget]
  rfl

theorem smallTailRecovery_copy (env : S3Env) (w : WriterState) (newID : Str)
    (etag : Nat) (hok : env.completeOk = true) (hcr : env.createResult = .ok newID)
    (hsz : ¬w.size < minChunkSize) (hcp : env.copyResult = .ok etag) :
    smallTailRecovery env w = (none,
      { w with uploadID := newID, parts := [⟨etag, 1, w.size⟩] },
      [S3Action.completeUpload w.key w.uploadID
          (sortParts (w.parts.map fun pt => (pt.etag, pt.partNumber))),
        S3Action.createUpload w.key, S3Action.uploadPartCopy w.key newID 1]) := by
  unfold smallTailRecovery
  rw [if_neg (by simp [hok]), hcr]
  dsimp only
  rw [if_neg hsz, hcp]
  rfl

theorem writerWrite_recovery_unfold (env : S3Env) (chunk : Nat) (w : WriterState)
    (p : List Nat) (hcl : w.closed = false) (hcm : w.committed = false)
    (hca : w.cancelled = false) (hshort : lastPartShort w = true) :
    writerWrite env chunk w p =
      (match smallTailRecovery env w with
        | (some e, w1, tr) => some (0, some e, w1, tr)
        | (none, w1, tr) => finishWrite env chunk w1 p tr) := by
  rw [writerWrite, if_neg (by simp [hcl]), if_neg (by simp [hcm]),
    if_neg (by simp [hca]), if_pos hshort]

/-- C1: for a writer with no terminal flag set whose parts list is non-empty
and whose last recorded part is smaller than minChunkSize, Write performs the
small-tail recovery protocol before buffering any new bytes: it first issues
CompleteMultipartUpload with the parts sorted by part number (a sorted
permutation of the recorded parts); if completion fails it aborts the upload
and surfaces the error, consuming nothing; otherwise it creates a new upload
for the same key and, when size < minChunkSize, fetches the completed object
in full into the ready buffer setting parts to empty, and otherwise copies
the whole object as part 1 of the new upload setting parts to the single
entry (etag, 1, size) — in each case the buffering loop then runs on the
recovered state with the input untouched. -/
theorem write_small_tail_recovery (env : S3Env) (chunk : Nat) (w : WriterState)
    (p : List Nat) (hcl : w.closed = false) (hcm : w.committed = false)
    (hca : w.cancelled = false) (_hne : w.parts ≠ []) (hshort : lastPartShort w = true) :
    (List.Pairwise (fun a b : CompletedPart => a.2 ≤ b.2)
        (sortParts (w.parts.map fun pt => (pt.etag, pt.partNumber))) ∧
      List.Perm (sortParts (w.parts.map fun pt => (pt.etag, pt.partNumber)))
        (w.parts.map fun pt => (pt.etag, pt.partNumber))) ∧
      (env.completeOk = false →
        writerWrite env chunk w p = some (0, some (parseError w.key env.completeErr), w,
          [S3Action.completeUpload w.key w.uploadID
              (sortParts (w.parts.map fun pt => (pt.etag, pt.partNumber))),
            S3Action.abortUpload w.key w.uploadID])) ∧
      (∀ newID, env.completeOk = true → env.createResult = .ok newID →
        (∀ bytes, w.size < minChunkSize → env.getObjectResult = .ok (bytes, none) →
          writerWrite env chunk w p = finishWrite env chunk
            { w with uploadID := newID, parts := [], readyPart := bytes } p
            [S3Action.completeUpload w.key w.uploadID
                (sortParts (w.parts.map fun pt => (pt.etag, pt.partNumber))),
              S3Action.createUpload w.key, S3Action.getObject w.key]) ∧
        (∀ etag, ¬w.size < minChunkSize → env.copyResult = .ok etag →
          writerWrite env chunk w p = finishWrite env chunk
            { w with uploadID := newID, parts := [⟨etag, 1, w.size⟩] } p
            [S3Action.completeUpload w.key w.uploadID
                (sortParts (w.parts.map fun pt => (pt.etag, pt.partNumber))),
              S3Action.createUpload w.key, S3Action.uploadPartCopy w.key newID 1])) := by
  refine ⟨⟨sortParts_sorted _, sortParts_perm _⟩, ?_, ?_⟩
  · intro hok
    rw [writerWrite_recovery_unfold env chunk w p hcl hcm hca hshort,
      smallTailRecovery_completeFail env w hok]
  · intro newID hok hcr
    constructor
    · intro bytes hsz hget
      rw [writerWrite_recovery_unfold env chunk w p hcl hcm hca hshort,
        smallTailRecovery_getObject env w newID bytes hok hcr hsz hget]
    · intro etag hsz hcp
      rw [writerWrite_recovery_unfold env chunk w p hcl hcm hca hshort,
        smallTailRecovery_copy env w newID etag hok hcr hsz hcp]

theorem write_small_tail_recovery_witness :
    List.Pairwise (fun a b : CompletedPart => a.2 ≤ b.2)
        (sortParts ((newWriter ['k'] ['u'] [⟨7, 1, 3⟩]).parts.map
          fun pt => (pt.etag, pt.partNumber))) ∧
      writerWrite { envOkAll with getObjectResult := .ok ([9, 9, 9], none) } 10
          (newWriter ['k'] ['u'] [⟨7, 1, 3⟩]) [1, 2]
        = finishWrite { envOkAll with getObjectResult := .ok ([9, 9, 9], none) } 10
            { newWriter ['k'] ['u'] [⟨7, 1, 3⟩] with
              uploadID := ['u', '2'], parts := [], readyPart := [9, 9, 9] } [1, 2]
            [S3Action.completeUpload ['k'] ['u']
                (sortParts ((newWriter ['k'] ['u'] [⟨7, 1, 3⟩]).parts.map
                  fun pt => (pt.etag, pt.partNumber))),
              S3Action.createUpload ['k'], S3Action.getObject ['k']] :=
  have happ := write_small_tail_recovery
    { envOkAll with getObjectResult := .ok ([9, 9, 9], none) } 10
    (newWriter ['k'] ['u'] [⟨7, 1, 3⟩]) [1, 2]
    (by decide) (by decide) (by decide) (by decide) (by decide)
  ⟨happ.1.1, (happ.2.2 ['u', '2'] rfl rfl).1 [9, 9, 9] (by decide) rfl⟩

theorem lastPartShort_true_iff (w : WriterState) :
    lastPartShort w = true ↔
      ∃ pt, w.parts.getLast? = some pt ∧ pt.size < minChunkSize := by
  unfold lastPartShort
  rcases h : w.parts.getLast? with _ | pt
  · simp
  · simp [h]

theorem smallTailRecovery_ok_cases (env : S3Env) (w w1 : WriterState)
    (tr : List S3Action) (h : smallTailRecovery env w = (none, w1, tr)) :
    (∃ newID bytes, env.getObjectResult = .ok (bytes, none) ∧ w.size < minChunkSize ∧
        w1 = { w with uploadID := newID, parts := [], readyPart := bytes }) ∨
      (∃ newID etag, ¬w.size < minChunkSize ∧
        w1 = { w with uploadID := newID, parts := [⟨etag, 1, w.size⟩] }) := by
  unfold smallTailRecovery at h
  by_cases hok : env.completeOk = false
  · rw [if_pos hok] at h; simp at h
  · rw [if_neg hok] at h
    rcases hcr : env.createResult with c | newID <;> rw [hcr] at h
    · simp at h
    · dsimp only at h
      by_cases hsz : w.size < minChunkSize
      · rw [if_pos hsz] at h
        rcases hget : env.getObjectResult with c | ⟨bytes, readErr⟩ <;> rw [hget] at h
        · simp at h
        · rcases readErr with _ | rerr
          · simp only [Prod.mk.injEq] at h
            exact Or.inl ⟨newID, bytes, rfl, hsz, h.2.1.symm⟩
          · simp at h
      · rw [if_neg hsz] at h
        rcases hcp : env.copyResult with c | etag <;> rw [hcp] at h
        · simp at h
        · simp only [Prod.mk.injEq] at h
          exact Or.inr ⟨newID, etag, hsz, h.2.1.symm⟩

theorem finishWrite_goodstate (env : S3Env) (chunk : Nat) (hmc : minChunkSize ≤ chunk)
    (w1 : WriterState) (p : List Nat) (tr0 : List S3Action) (n : Nat)
    (w' : WriterState) (tr : List S3Action)
    (hA : w1.readyPart.length ≤ chunk) (hB : w1.pendingPart.length ≤ chunk)
    (hC : w1.pendingPart.length ≠ 0 → w1.readyPart.length = chunk)
    (hD : ∀ pt, w1.parts.getLast? = some pt → minChunkSize ≤ pt.size)
    (hsz : w1.size = bufTotal w1)
    (h : finishWrite env chunk w1 p tr0 = some (n, none, w', tr)) :
    GoodState chunk w' := by
  rcases hwl : writeLoop env chunk (p.length + 1) w1 p 0 tr0 with _ | ⟨n2, e2, w2, tr2⟩
  · rw [finishWrite, hwl] at h; cases h
  · rw [finishWrite, hwl] at h
    simp only [Option.map_some', Option.some.injEq, Prod.mk.injEq] at h
    obtain ⟨hn, he, hw, _⟩ := h
    subst hw
    rw [he] at hwl
    obtain ⟨hA2, hB2, hC2, hD2⟩ :=
      writeLoop_inv env chunk hmc _ _ _ _ _ _ _ _ hA hB hC hD hwl
    obtain ⟨_, _, _, hsize2, _, hbuf2, _⟩ := writeLoop_basic _ _ _ _ _ _ _ _ _ _ _ hwl
    refine ⟨?_, hA2, hB2, fun hne => hC2 (fun h0 => hne (List.length_eq_zero.mp h0)), fun hls => ?_⟩
    · show w2.size + n2 = bufTotal _
      have hb : bufTotal { w2 with size := w2.size + n2 } = bufTotal w2 := by
        simp [bufTotal]
      rw [hb, hsize2, hsz]
      omega
    · exfalso
      rw [lastPartShort_true_iff] at hls
      obtain ⟨pt, hpt, hlt⟩ := hls
      have := hD2 pt hpt
      omega

theorem flushPart_goodstate (env : S3Env) (chunk : Nat) (hmc : minChunkSize ≤ chunk)
    (w w1 : WriterState) (tr : List S3Action)
    (hg1 : w.size = bufTotal w) (hg2 : w.readyPart.length ≤ chunk)
    (hg3 : w.pendingPart.length ≤ chunk)
    (hg4 : w.pendingPart ≠ [] → w.readyPart.length = chunk)
    (hg5 : lastPartShort w = true → w.readyPart = [] ∧ w.pendingPart = [])
    (h : flushPart env chunk w = (none, w1, tr)) :
    GoodState chunk w1 := by
  rcases flushPart_ok_cases _ _ _ _ _ h with
    ⟨hr0, hp0, hw1⟩ | ⟨hlt, etag, hw1⟩ | ⟨hge, etag, hw1⟩
  · subst hw1
    exact ⟨hg1, hg2, hg3, hg4, hg5⟩
  · subst hw1
    refine ⟨?_, by simp, by simp, by simp, fun _ => ⟨rfl, rfl⟩⟩
    show w.size = bufTotal _
    rw [hg1]
    simp [bufTotal, partsSizeSum]
    try omega
  · have hpc : w.pendingPart.length = chunk := Nat.le_antisymm hg3 hge
    have hrc : w.readyPart.length = chunk := by
      apply hg4
      intro hnil
      rw [hnil] at hpc
      simp at hpc
      have hpos := minChunkSize_pos
      omega
    subst hw1
    refine ⟨?_, by simpa using hg3, by simp, by simp, fun hls => ?_⟩
    · show w.size = bufTotal _
      rw [hg1]
      simp [bufTotal, partsSizeSum]
      try omega
    · exfalso
      rw [lastPartShort_true_iff] at hls
      obtain ⟨pt, hpt, hsmall⟩ := hls
      simp only [List.getLast?_concat, Option.some.injEq] at hpt
      rw [← hpt] at hsmall
      simp only at hsmall
      omega

theorem goodstate_step (chunk : Nat) (hmc : minChunkSize ≤ chunk) (w w' : WriterState)
    (hs : WStepOk chunk w w') (hg : GoodState chunk w) : GoodState chunk w' := by
  obtain ⟨hg1, hg2, hg3, hg4, hg5⟩ := hg
  rcases hs with ⟨env, p, _, _, n, tr, henv, h⟩ | ⟨env, _, _, tr, h⟩ |
    ⟨env, _, _, tr, h⟩ | ⟨env, _, _, tr, h⟩
  · -- Write
    by_cases hcl : w.closed = true
    · rw [writerWrite, if_pos hcl] at h; simp at h
    · rw [writerWrite, if_neg hcl] at h
      by_cases hcm : w.committed = true
      · rw [if_pos hcm] at h; simp at h
      · rw [if_neg hcm] at h
        by_cases hca : w.cancelled = true
        · rw [if_pos hca] at h; simp at h
        · rw [if_neg hca] at h
          by_cases hshort : lastPartShort w = true
          · rw [if_pos hshort] at h
            rcases hrec : smallTailRecovery env w with ⟨e1, w1, tr1⟩
            rw [hrec] at h
            rcases e1 with _ | err1
            · dsimp only at h
              obtain ⟨hbr, hbp⟩ := hg5 hshort
              have hsizeeq : w.size = partsSizeSum w.parts := by
                rw [hg1]
                simp [bufTotal, hbr, hbp]
              rcases smallTailRecovery_ok_cases env w w1 tr1 hrec with
                ⟨newID, bytes, hget, hsz, hw1⟩ | ⟨newID, etag, hsz, hw1⟩
              · subst hw1
                have hbl : bytes.length = partsSizeSum w.parts := henv bytes none hget
                refine finishWrite_goodstate env chunk hmc _ p _ n w' tr
                  ?_ ?_ ?_ ?_ ?_ h
                · show bytes.length ≤ chunk
                  omega
                · show w.pendingPart.length ≤ chunk
                  exact hg3
                · show w.pendingPart.length ≠ 0 → bytes.length = chunk
                  intro hlen
                  rw [hbp] at hlen
                  simp at hlen
                · intro pt hpt
                  simp at hpt
                · show w.size = bufTotal _
                  simp [bufTotal, partsSizeSum, hbp]
                  omega
              · subst hw1
                refine finishWrite_goodstate env chunk hmc _ p _ n w' tr
                  ?_ ?_ ?_ ?_ ?_ h
                · show w.readyPart.length ≤ chunk
                  exact hg2
                · show w.pendingPart.length ≤ chunk
                  exact hg3
                · show w.pendingPart.length ≠ 0 → w.readyPart.length = chunk
                  intro hlen
                  exact hg4 (fun hnil => hlen (by rw [hnil]; rfl))
                · intro pt hpt
                  simp only [List.getLast?_singleton, Option.some.injEq] at hpt
                  rw [← hpt]
                  simp only
                  omega
                · show w.size = bufTotal _
                  simp [bufTotal, partsSizeSum, hbr, hbp]
            · dsimp only at h; simp at h
          · rw [if_neg hshort] at h
            refine finishWrite_goodstate env chunk hmc w p [] n w' tr hg2 hg3
              (fun hlen => hg4 (fun hnil => hlen (by rw [hnil]; rfl)))
              (fun pt hpt => Nat.le_of_not_lt
                (fun hsmall => hshort ((lastPartShort_true_iff w).mpr ⟨pt, hpt, hsmall⟩)))
              hg1 h
  · -- Close
    unfold writerClose at h
    by_cases hcl : w.closed = true
    · rw [if_pos hcl] at h; simp at h
    · rw [if_neg hcl] at h
      exact flushPart_goodstate env chunk hmc { w with closed := true } _ _
        hg1 hg2 hg3 hg4 hg5 h
  · -- Cancel
    obtain ⟨_, _, _, hw'⟩ := writerCancel_ok _ _ _ _ h
    subst hw'
    exact ⟨hg1, hg2, hg3, hg4, hg5⟩
  · -- Commit
    unfold writerCommit at h
    by_cases hcl : w.closed = true
    · rw [if_pos hcl] at h; simp at h
    · rw [if_neg hcl] at h
      by_cases hcm : w.committed = true
      · rw [if_pos hcm] at h; simp at h
      · rw [if_neg hcm] at h
        by_cases hca : w.cancelled = true
        · rw [if_pos hca] at h; simp at h
        · rw [if_neg hca] at h
          rcases hfl : flushPart env chunk w with ⟨e1, w1, tr1⟩
          rw [hfl] at h
          rcases e1 with _ | err1
          · dsimp only at h
            by_cases hok : env.completeOk = true
            · rw [if_pos hok] at h
              simp only [Prod.mk.injEq] at h
              obtain ⟨_, hw, _⟩ := h
              subst hw
              obtain ⟨k1, k2, k3, k4, k5⟩ := flushPart_goodstate env chunk hmc _ _ _
                hg1 hg2 hg3 hg4 hg5 hfl
              exact ⟨k1, k2, k3, k4, k5⟩
            · rw [if_neg hok] at h; simp at h
          · dsimp only at h; simp at h

/-- C4 (amended): for every writer reachable from a fresh or attached writer
by calls that all succeed against a well-formed backend (one whose GetObject
read-back during recovery returns exactly the completed parts' bytes), the
claimed between-calls invariant holds: size equals the sum of recorded part
sizes plus both buffer lengths, and each buffer holds at most chunk bytes.
Failed calls can break the invariant (see the counterexample). -/
theorem writer_state_invariant_amended (chunk : Nat) (key uploadID : Str)
    (parts : List S3Part) (w : WriterState) (hmc : minChunkSize ≤ chunk)
    (hreach : WReachableOk chunk (newWriter key uploadID parts) w) :
    StateInv chunk w := by
  have hinit : GoodState chunk (newWriter key uploadID parts) := by
    refine ⟨?_, by simp [newWriter], by simp [newWriter], ?_, fun _ => ⟨rfl, rfl⟩⟩
    · simp [newWriter, bufTotal, partsSizeSum]
    · intro hne
      exact absurd rfl hne
  have hgood : GoodState chunk w := by
    induction hreach with
    | refl => exact hinit
    | tail hsteps hstep ih => exact goodstate_step chunk hmc _ _ hstep ih
  exact ⟨hgood.1, hgood.2.1, hgood.2.2.1⟩

theorem writer_state_invariant_amended_witness :
    minChunkSize ≤ 5242880 ∧ StateInv 5242880 (newWriter ['k'] ['u'] []) :=
  ⟨by decide, writer_state_invariant_amended 5242880 ['k'] ['u'] [] _ (by decide)
    Relation.ReflTransGen.refl⟩

/-- C4 counterexample: a writer holding a full ready buffer (5 MiB, equal to
the minimum chunk size) and one pending byte satisfies the claimed invariant,
but a flushPart whose UploadPart fails (as Close performs on such a state)
first splices the pending byte onto the ready buffer and leaves it there,
producing a state whose ready buffer exceeds chunk size: flushPart does not
preserve the claimed invariant. -/
theorem writer_state_invariant_counterexample :
    StateInv 5242880 wFullBuffers ∧
      flushPart envUploadFails 5242880 wFullBuffers
        = (some (.backend (.other 5)), wFullBuffersCombined,
            [S3Action.uploadPart ['k'] ['u'] 1 (List.replicate 5242880 0 ++ [0])]) ∧
      ¬StateInv 5242880 wFullBuffersCombined := by
  have hsz : wFullBuffers.size = 5242881 := rfl
  have hpr : wFullBuffers.parts = [] := rfl
  have hr : wFullBuffers.readyPart = List.replicate 5242880 0 := rfl
  have hp : wFullBuffers.pendingPart = [0] := rfl
  have hr2 : wFullBuffersCombined.readyPart = List.replicate 5242880 0 ++ [0] := rfl
  refine ⟨⟨?_, ?_, ?_⟩, ?_, ?_⟩
  · rw [hsz, hpr, hr, hp, List.length_replicate]
    rfl
  · rw [hr, List.length_replicate]
  · rw [hp]
    decide
  · rfl
  · intro hinv
    have h2 := hinv.2.1
    rw [hr2, List.length_append, List.length_replicate] at h2
    simp only [List.length_singleton] at h2
    omega

theorem range_map_add_one (n : Nat) :
    (List.range n).map (· + 1) = List.range' 1 n := by
  induction n with
  | zero => rfl
  | succ m ih =>
    rw [List.range_succ, List.map_append, ih, List.range'_1_concat]
    simp [Nat.add_comm]

/-- C6: above the threshold, copy creates a multipart upload and issues
ceil(size/chunk) range copies, part i (0-based) covering bytes
[i*chunk, min((i+1)*chunk - 1, size - 1)] as part number i+1, with the
completion request listing part numbers 1..numParts in order (and numParts is
the least count whose chunks cover size); at or below the threshold a single
CopyObject is issued; and the spec's instance (100 MiB at 32 MiB chunks)
yields 4 parts of 32, 32, 32 and 4 MiB. -/
theorem copy_spec (thresholdSize chunkSize size : Nat) (srcKey dstKey : Str)
    (hchunk : 0 < chunkSize) :
    (size ≤ thresholdSize →
      sCopy thresholdSize chunkSize size srcKey dstKey = [.copyObject srcKey dstKey]) ∧
      (thresholdSize < size →
        sCopy thresholdSize chunkSize size srcKey dstKey
          = CopyAction.createUpload dstKey ::
              ((List.range ((size + chunkSize - 1) / chunkSize)).map fun i =>
                CopyAction.uploadRangeCopy dstKey (i + 1) (i * chunkSize)
                  (min ((i + 1) * chunkSize - 1) (size - 1))) ++
              [CopyAction.completeUpload dstKey
                (List.range' 1 ((size + chunkSize - 1) / chunkSize))] ∧
          size ≤ ((size + chunkSize - 1) / chunkSize) * chunkSize ∧
          (((size + chunkSize - 1) / chunkSize) - 1) * chunkSize < size) ∧
      rangeSizes (sCopy 33554432 33554432 104857600 srcKey dstKey)
        = [33554432, 33554432, 33554432, 4194304] := by
  refine ⟨fun hle => by rw [sCopy, if_pos hle], fun hgt => ⟨?_, ?_, ?_⟩, ?_⟩
  · have hm : (List.range ((size + chunkSize - 1) / chunkSize)).map
        (fun i => CopyAction.uploadRangeCopy dstKey (i + 1) (i * chunkSize)
          (min (i * chunkSize + chunkSize - 1) (size - 1)))
        = (List.range ((size + chunkSize - 1) / chunkSize)).map
          (fun i => CopyAction.uploadRangeCopy dstKey (i + 1) (i * chunkSize)
            (min ((i + 1) * chunkSize - 1) (size - 1))) := by
      apply List.map_congr_left
      intro i _
      rw [Nat.add_mul, Nat.one_mul]
    rw [sCopy, if_neg (by omega)]
    simp only [range_map_add_one, hm]
  · have h1 := Nat.div_mul_le_self (size + chunkSize - 1) chunkSize
    have h2 := Nat.lt_div_mul_add (a := size + chunkSize - 1) hchunk
    omega
  · have h1 := Nat.div_mul_le_self (size + chunkSize - 1) chunkSize
    have h3 : (((size + chunkSize - 1) / chunkSize) - 1) * chunkSize
        = ((size + chunkSize - 1) / chunkSize) * chunkSize - 1 * chunkSize := by
      rw [Nat.sub_mul]
    omega
  · rw [sCopy, if_neg (by norm_num)]
    norm_num [rangeSizes, List.range_succ, List.filterMap_append, List.filterMap_cons]

theorem copy_spec_witness :
    (104857600 ≤ 33554432 →
      sCopy 33554432 33554432 104857600 ['s'] ['d'] = [.copyObject ['s'] ['d']]) ∧
      rangeSizes (sCopy 33554432 33554432 104857600 ['s'] ['d'])
        = [33554432, 33554432, 33554432, 4194304] ∧
      104857600 ≤ ((104857600 + 33554432 - 1) / 33554432) * 33554432 :=
  have happ := copy_spec 33554432 33554432 104857600 ['s'] ['d'] (by decide)
  ⟨happ.1, happ.2.2, (happ.2.1 (by decide)).2.1⟩

/-- C9: Reader issues a ranged GET whose key is the mapped path and whose
Range header is "bytes=<offset>-" with the offset in decimal; when the
backend reports InvalidRange it returns an empty stream with no error; a
successful body is returned as is; any other backend error propagates
through parseError. -/
theorem reader_spec (rootDir : Str) (env : Except ErrCode (List Nat)) (path : Str)
    (offset : Nat) :
    (sReader rootDir env path offset).1.key = s3Path rootDir path ∧
      (sReader rootDir env path offset).1.range
        = ['b', 'y', 't', 'e', 's', '='] ++ Nat.toDigits 10 offset ++ ['-'] ∧
      (env = .error .invalidRange → (sReader rootDir env path offset).2 = .ok []) ∧
      (∀ body, env = .ok body → (sReader rootDir env path offset).2 = .ok body) ∧
      (∀ c, env = .error c → c ≠ .invalidRange →
        (sReader rootDir env path offset).2 = .error (parseError path c)) := by
  rcases env with c | body
  · by_cases hc : c = ErrCode.invalidRange
    · subst hc
      refine ⟨rfl, rfl, fun _ => rfl, ?_, ?_⟩
      · intro body hb
        exact Except.noConfusion hb
      · intro c2 hc2 hne
        injection hc2 with h
        exact absurd h.symm hne
    · have hif : sReader rootDir (.error c) path offset
          = (⟨s3Path rootDir path, rangeHeader offset⟩, .error (parseError path c)) := by
        simp [sReader, hc]
      refine ⟨by rw [hif], by rw [hif]; rfl, ?_, ?_, ?_⟩
      · intro hinv
        injection hinv with h
        exact absurd h hc
      · intro body hb
        exact Except.noConfusion hb
      · intro c2 hc2 _
        injection hc2 with h
        subst h
        rw [hif]
  · refine ⟨rfl, rfl, ?_, ?_, ?_⟩
    · intro h
      exact Except.noConfusion h
    · intro body2 hb
      injection hb with h
      subst h
      rfl
    · intro c2 hc2 _
      exact Except.noConfusion hc2

theorem reader_spec_witness :
    ((Except.error ErrCode.invalidRange : Except ErrCode (List Nat))
        = Except.error ErrCode.invalidRange →
      (sReader [] (Except.error ErrCode.invalidRange) "/a/b".toList 7).2
        = Except.ok []) ∧
      (sReader [] (Except.error ErrCode.invalidRange) "/a/b".toList 7).1.range
        = ['b', 'y', 't', 'e', 's', '='] ++ Nat.toDigits 10 7 ++ ['-'] :=
  have happ := reader_spec [] (Except.error ErrCode.invalidRange) "/a/b".toList 7
  ⟨fun _ => happ.2.2.1 rfl, happ.2.1⟩

theorem listAccum_empty_iff (rootKey pfx : Str) (env : List ListPage) :
    ((listAccum rootKey pfx env).1 = [] ∧ (listAccum rootKey pfx env).2 = []) ↔
      ∀ pg ∈ consumedPages env, pg.contents = [] ∧ pg.commonPrefixes = [] := by
  induction env with
  | nil => simp [listAccum, consumedPages]
  | cons pg rest ih =>
    by_cases ht : pg.truncated = true
    · simp only [listAccum, consumedPages, if_pos ht]
      simp only [List.append_eq_nil, List.map_eq_nil_iff, List.mem_cons]
      constructor
      · rintro ⟨⟨hc, hr1⟩, hp, hr2⟩ q hq
        rcases hq with rfl | hq
        · exact ⟨hc, hp⟩
        · exact (ih.mp ⟨hr1, hr2⟩) q hq
      · intro hall
        obtain ⟨hc, hp⟩ := hall pg (Or.inl rfl)
        obtain ⟨hr1, hr2⟩ := ih.mpr fun q hq => hall q (Or.inr hq)
        exact ⟨⟨hc, hr1⟩, hp, hr2⟩
    · simp only [listAccum, consumedPages, if_neg ht]
      simp [List.map_eq_nil_iff]

theorem deliverInfo_invar {σ : Type} (f : σ → WalkInfo → FnRes × σ) (st : DelivSt σ)
    (info : WalkInfo) (h : st.retErr ≠ none → 1 ≤ st.count) :
    (deliverInfo f st info).retErr ≠ none → 1 ≤ (deliverInfo f st info).count := by
  unfold deliverInfo
  by_cases h1 : st.halted = true
  · rw [if_pos h1]; exact h
  · rw [if_neg h1]
    by_cases h2 : st.prevSkipDir ≠ [] ∧ st.prevSkipDir.isPrefixOf info.path
    · rw [if_pos h2]; exact h
    · rw [if_neg h2]
      intro _
      rcases hres : (f st.fnSt info).1 with _ | _ | e
      · simp only [hres]
        exact Nat.le_add_left 1 st.count
      · simp only [hres]
        by_cases hd : info.isDir = true
        · rw [if_pos hd]
          exact Nat.le_add_left 1 st.count
        · rw [if_neg hd]
          exact Nat.le_add_left 1 st.count
      · simp only [hres]
        exact Nat.le_add_left 1 st.count

theorem foldl_deliver_invar {σ : Type} (f : σ → WalkInfo → FnRes × σ)
    (infos : List WalkInfo) :
    ∀ st : DelivSt σ, (st.retErr ≠ none → 1 ≤ st.count) →
      (infos.foldl (deliverInfo f) st).retErr ≠ none →
        1 ≤ (infos.foldl (deliverInfo f) st).count := by
  induction infos with
  | nil => intro st h; exact h
  | cons i is ih => intro st h; exact ih _ (deliverInfo_invar f st i h)

theorem walkPages_invar {σ : Type} (rootKey pfx : Str) (f : σ → WalkInfo → FnRes × σ)
    (pages : List WalkPage) :
    ∀ pd (st : DelivSt σ) pd' st', (st.retErr ≠ none → 1 ≤ st.count) →
      walkPages rootKey pfx f pages pd st = some (pd', st') →
      (st'.retErr ≠ none → 1 ≤ st'.count) := by
  induction pages with
  | nil =>
    intro pd st pd' st' h hw
    simp only [walkPages, Option.some.injEq, Prod.mk.injEq] at hw
    rw [← hw.2]
    exact h
  | cons pg rest ih =>
    intro pd st pd' st' h hw
    rw [walkPages] at hw
    by_cases hh : st.halted = true
    · rw [if_pos hh] at hw
      simp only [Option.some.injEq, Prod.mk.injEq] at hw
      rw [← hw.2]
      exact h
    · rw [if_neg hh] at hw
      rcases hb : buildWalkInfos rootKey pfx pg.contents pd with _ | ⟨infos, pd2⟩ <;>
        rw [hb] at hw
      · cases hw
      · exact ih _ _ _ _ (foldl_deliver_invar f infos st h) hw

theorem sList_pnf_iff_aux (rootKey pfx2 : Str) (env : List ListPage) (c : Char)
    (cs : List Char) (hop1 : (c :: cs : Str) ≠ ['/']) :
    ((if (c :: cs : Str) ≠ ['/'] ∧ (listAccum rootKey pfx2 env).1 = [] ∧
          (listAccum rootKey pfx2 env).2 = [] then
        some (Except.error (ListErr.pathNotFound (c :: cs)))
      else
        some (Except.ok ((listAccum rootKey pfx2 env).1 ++ (listAccum rootKey pfx2 env).2)))
        = some (Except.error (ListErr.pathNotFound (c :: cs))) ↔
      ∀ pg ∈ consumedPages env, pg.contents = [] ∧ pg.commonPrefixes = []) := by
  split
  · next hcond =>
    constructor
    · intro _
      exact (listAccum_empty_iff _ _ _).mp ⟨hcond.2.1, hcond.2.2⟩
    · intro _
      rfl
  · next hcond =>
    constructor
    · intro heq
      simp at heq
    · intro hall
      exact absurd ⟨hop1, ((listAccum_empty_iff _ _ _).mpr hall).1,
        ((listAccum_empty_iff _ _ _).mpr hall).2⟩ hcond

/-- C8: for a non-empty path other than "/", List returns PathNotFound exactly
when the consumed pages contain no content keys and no common prefixes; and
when the recursive listing succeeds, Walk returns PathNotFound(from) exactly
when zero events were delivered to the callback. -/
theorem list_walk_empty_pathNotFound {σ : Type} (rootDir : Str) (env : List ListPage)
    (opath : Str) (pages : List WalkPage) (f : σ → WalkInfo → FnRes × σ) (s0 : σ)
    (fromPath : Str) (hop0 : opath ≠ []) (hop1 : opath ≠ ['/']) :
    (sList rootDir env opath = some (.error (.pathNotFound opath)) ↔
        ∀ pg ∈ consumedPages env, pg.contents = [] ∧ pg.commonPrefixes = []) ∧
      (∀ cnt out, sWalk rootDir pages none f s0 fromPath = some (cnt, out) →
        (out = WalkOutcome.pathNotFound fromPath ↔ cnt = 0)) := by
  constructor
  · rcases hpath : opath with _ | ⟨c, cs⟩
    · exact absurd hpath hop0
    · rw [sList]
      exact sList_pnf_iff_aux _ _ _ _ _ (hpath ▸ hop1)
      exact fun h => List.noConfusion h
  · intro cnt out hw
    rw [sWalk] at hw
    rcases hwp : walkPages (s3Path rootDir [])
        (if s3Path rootDir [] = [] then ['/'] else []) f pages
        ((if s3Path rootDir [] = [] then ['/'] else []) ++
          s3Path rootDir
            (if List.getLast? fromPath = some '/' then fromPath else fromPath ++ ['/']))
        ⟨[], 0, none, false, s0⟩ with _ | ⟨pd, st⟩
    · rw [hwp] at hw
      exact Option.noConfusion hw
    · rw [hwp] at hw
      rcases hre : st.retErr with _ | e
    -- retErr = none: outcome decided by the zero-count test
      · simp only [hre] at hw
        by_cases hc0 : st.count = 0
        · rw [if_pos hc0] at hw
          simp only [Option.some.injEq, Prod.mk.injEq] at hw
          constructor
          · intro _
            rw [← hw.1, hc0]
          · intro _
            rw [← hw.2]
        · rw [if_neg hc0] at hw
          simp only [Option.some.injEq, Prod.mk.injEq] at hw
          constructor
          · intro hout
            rw [← hw.2] at hout
            cases hout
          · intro hc
            rw [← hw.1] at hc
            exact absurd hc hc0
    -- retErr = some e: the callback error implies at least one delivery
      · simp only [hre] at hw
        simp only [Option.some.injEq, Prod.mk.injEq] at hw
        have hcount : 1 ≤ st.count :=
          walkPages_invar _ _ f pages _ _ _ _ (fun hc => absurd rfl hc) hwp
            (by rw [hre]; exact fun h => Option.noConfusion h)
        constructor
        · intro hout
          rw [← hw.2] at hout
          cases hout
        · intro hc
          rw [← hw.1] at hc
          omega

theorem list_walk_empty_pathNotFound_witness :
    sList [] [⟨[], [], false⟩] "/a".toList
        = some (Except.error (ListErr.pathNotFound "/a".toList)) ∧
      WalkOutcome.okDone ≠ WalkOutcome.pathNotFound "/a".toList := by
  have h := list_walk_empty_pathNotFound (σ := Unit) [] [⟨[], [], false⟩] "/a".toList
      [⟨[⟨"a/b/c".toList, 5, 0⟩, ⟨"a/e".toList, 2, 0⟩]⟩] (fun s _ => (.ok, s)) ()
      "/a".toList (by decide) (by decide)
  refine ⟨h.1.mpr (by decide), ?_⟩
  intro hout
  exact absurd ((h.2 3 .okDone (by decide)).mp hout) (by decide)
